import Mathlib

/-!
Verification of the Krushna Dudh vehicle-management script (`app.py`).

The program reads two spreadsheet columns (route names `RUTE NAME` and
vehicle identifiers `GADI_NUMBER`), generates a month-long block timetable
(`generate_block_timetable`), and summarises per-vehicle working/holiday
days (`generate_summary`).  We embed the two pure computations shallowly:

* spreadsheet columns (after `dropna`) become `List String` arguments;
* Python runtime exceptions that the code can raise (`IndexError` from
  `backup_vehicles[backup_index]` on an empty list, `ZeroDivisionError`
  from `r_idx % len(fixed_vehicles)` with no fixed vehicles) become an
  explicit `Except PyError` result;
* the Python `for day in range(1, days_in_month+1)` loop becomes structural
  recursion over `List.range' 1 days_in_month`;
* the dict `timetable_blocks` is modelled as the association list of its
  insertions, in insertion order; `pyDict` below reproduces Python's
  dict semantics (first-insertion order, last write per key wins) and is
  applied where the program consumes the dict (`generate_summary` iterates
  `timetable_blocks.values()`).  For distinct route names the two coincide.
* the `while len(holidays[v]) < 5 and day <= days_in_month` loop becomes
  `holidayExtendGo` with fuel `5 - len(cur)`, which is exact because each
  iteration appends one element.
-/

/-- The Python exceptions reachable in `generate_block_timetable`. -/
inductive PyError where
  | indexError : PyError
  | zeroDivError : PyError
deriving DecidableEq, Repr

/-- One timetable block `{"start": ..., "end": ..., "vehicle": ...}`.
The dict key `end` is a Lean keyword, so the field is named `stop`. -/
structure Block where
  start : Nat
  stop : Nat
  vehicle : String
deriving DecidableEq, Repr

/-- `calendar.monthrange(year, month)[1]`: days in a Gregorian month. -/
def isLeap (y : Nat) : Bool := (y % 4 == 0 && y % 100 != 0) || y % 400 == 0

/-- Number of days of the given month, as `cal.monthrange(year, month)[1]`. -/
def daysInMonth (y m : Nat) : Nat :=
  if m = 2 then (if isLeap y then 29 else 28)
  else if m = 4 ∨ m = 6 ∨ m = 9 ∨ m = 11 then 30 else 31

/-- Python's substring test `a in b` on strings. -/
def pyIn (a b : String) : Bool := decide (a.toList <:+: b.toList)

/-- Python dict assignment `h[k] = val` for the `holidays` dict. -/
def dictUpdate (h : String → List Nat) (k : String) (val : List Nat) :
    String → List Nat :=
  fun x => if x = k then val else h x

/-- The body of `while len(holidays[v]) < 5 and day <= days_in_month:`,
with the guard `len < 5` replaced by the exact fuel `5 - len(cur)`
supplied by `holidayExtend`. -/
def holidayExtendGo (N : Nat) : Nat → List Nat → Nat → List Nat
  | 0, cur, _ => cur
  | fuel + 1, cur, day =>
    if day ≤ N then holidayExtendGo N fuel (cur ++ [day]) (day + 6) else cur

/-- `while len(holidays[v]) < 5 and day <= days_in_month:
      holidays[v].append(day); day += 6`. -/
def holidayExtend (cur : List Nat) (day N : Nat) : List Nat :=
  holidayExtendGo N (5 - cur.length) cur day

/-- The holiday pre-assignment of `generate_block_timetable`:
`holidays = {v: [] for v in fixed_vehicles}` followed by
`for i, v in enumerate(fixed_vehicles): day = (i % 5) + 6; while ...`.
Keys absent from the dict are mapped to `[]` (they are never looked up
by the program). -/
def mkHolidays (fixed_vehicles : List String) (days_in_month : Nat) :
    String → List Nat :=
  fixed_vehicles.enum.foldl
    (fun h p => dictUpdate h p.2 (holidayExtend (h p.2) (p.1 % 5 + 6) days_in_month))
    (fun _ => [])

/-- The inner `for day in range(1, days_in_month + 1)` loop of
`generate_block_timetable`, for one route with fixed vehicle `v`.
State: remaining days, `start_day`, `current_vehicle`, `backup_index`,
accumulated `blocks`.  Returns the blocks and the final `backup_index`
(which Python keeps across routes). -/
def dayLoop (hol : List Nat) (backup_vehicles : List String) (v : String)
    (days_in_month : Nat) :
    List Nat → Nat → String → Nat → List Block →
    Except PyError (List Block × Nat)
  | [], _, _, backup_index, blocks => .ok (blocks, backup_index)
  | day :: rest, start_day, current_vehicle, backup_index, blocks =>
    match (if day ∈ hol then
             match backup_vehicles.get? backup_index with
             | none => Except.error PyError.indexError
             | some b =>
               Except.ok (b ++ " (H)", (backup_index + 1) % backup_vehicles.length)
           else Except.ok (v, backup_index) :
            Except PyError (String × Nat)) with
    | .error e => .error e
    | .ok (assigned_vehicle, backup_index') =>
      if assigned_vehicle = current_vehicle then
        dayLoop hol backup_vehicles v days_in_month rest start_day
          current_vehicle backup_index'
          (if day = days_in_month then
             blocks ++ [⟨start_day, day, current_vehicle⟩] else blocks)
      else
        dayLoop hol backup_vehicles v days_in_month rest day
          assigned_vehicle backup_index'
          (if day = days_in_month then
             blocks ++ [⟨start_day, day - 1, current_vehicle⟩] ++
               [⟨day, day, assigned_vehicle⟩]
           else blocks ++ [⟨start_day, day - 1, current_vehicle⟩])

/-- The outer `for r_idx, route in enumerate(routes)` loop of
`generate_block_timetable`.  `r_idx % len(fixed_vehicles)` raises
`ZeroDivisionError` when there are no fixed vehicles. -/
def routeLoop (fixed_vehicles backup_vehicles : List String)
    (hol : String → List Nat) (days_in_month : Nat) :
    List String → Nat → Nat → Except PyError (List (String × List Block))
  | [], _, _ => .ok []
  | route :: rest, r_idx, backup_index =>
    if fixed_vehicles.length = 0 then .error .zeroDivError
    else
      match dayLoop (hol (fixed_vehicles.getD (r_idx % fixed_vehicles.length) ""))
              backup_vehicles
              (fixed_vehicles.getD (r_idx % fixed_vehicles.length) "")
              days_in_month (List.range' 1 days_in_month) 1
              (fixed_vehicles.getD (r_idx % fixed_vehicles.length) "")
              backup_index [] with
      | .error e => .error e
      | .ok (blocks, backup_index') =>
        match routeLoop fixed_vehicles backup_vehicles hol days_in_month
                rest (r_idx + 1) backup_index' with
        | .error e => .error e
        | .ok tl => .ok ((route, blocks) :: tl)

/-- `generate_block_timetable(data, year, month)` with the two extracted
columns as arguments.  `fixed_vehicles = vehicles[:len(routes)]`,
`backup_vehicles = vehicles[len(routes):]`.  The returned association
list records the dict insertions `timetable_blocks[route] = blocks`
in loop order. -/
def generate_block_timetable (routes vehicles : List String)
    (year month : Nat) : Except PyError (List (String × List Block)) :=
  routeLoop (vehicles.take routes.length) (vehicles.drop routes.length)
    (mkHolidays (vehicles.take routes.length) (daysInMonth year month))
    (daysInMonth year month) routes 0 0

/-- A row of the summary DataFrame. -/
structure SummaryRow where
  vehicle : String
  workingDays : Int
  holidays : Int
deriving DecidableEq, Repr

/-- `block['end'] - block['start'] + 1` as a Python integer. -/
def blockLen (blk : Block) : Int := (blk.stop : Int) - blk.start + 1

/-- The accumulation of `work_days` in `generate_summary` for one vehicle:
`if v in block['vehicle'] and "(H)" not in block['vehicle']`. -/
def workDaysFor (timetable_blocks : List (String × List Block)) (v : String) :
    Int :=
  (timetable_blocks.map (fun p =>
    ((p.2.filter (fun blk =>
        pyIn v blk.vehicle && !(pyIn "(H)" blk.vehicle))).map blockLen).sum)).sum

/-- `generate_summary(timetable_blocks, fixed_vehicles, days_in_month)`. -/
def generate_summary (timetable_blocks : List (String × List Block))
    (fixed_vehicles : List String) (days_in_month : Nat) : List SummaryRow :=
  fixed_vehicles.map (fun v =>
    ⟨v, workDaysFor timetable_blocks v,
      (days_in_month : Int) - workDaysFor timetable_blocks v⟩)

/-- Python dict built by repeated assignment from an association list:
keys in first-insertion order, the last value per key winning. -/
def pyDict (l : List (String × List Block)) : List (String × List Block) :=
  l.foldl (fun acc p =>
    if acc.any (fun q => decide (q.1 = p.1)) then
      acc.map (fun q => if q.1 = p.1 then (q.1, p.2) else q)
    else acc ++ [p]) []

/-- The tail of the button handler after the PDF bytes were read
(`app.py` lines 224-237): `try: os.remove(tmp_file.name) except Exception:
pass`, then the summary over `data['GADI_NUMBER'].dropna().tolist()[:14]`.
The outcome of `os.remove` is abstracted as an `Except` value; the
`except Exception: pass` clause discards it on either branch. -/
def cleanup_then_summary (removeResult : Except PyError Unit)
    (timetable_blocks : List (String × List Block)) (vehicles : List String)
    (days_in_month : Nat) : List SummaryRow :=
  match removeResult with
  | .ok _ =>
    generate_summary (pyDict timetable_blocks) (vehicles.take 14) days_in_month
  | .error _ =>
    generate_summary (pyDict timetable_blocks) (vehicles.take 14) days_in_month

/-- The generate-then-summarise pipeline of the button handler, with the
`os.remove` outcome abstracted (PDF rendering is pure I/O and is omitted). -/
def app_run (removeResult : Except PyError Unit) (routes vehicles : List String)
    (year month : Nat) : Except PyError (List SummaryRow) :=
  match generate_block_timetable routes vehicles year month with
  | .error e => .error e
  | .ok timetable_blocks =>
    .ok (cleanup_then_summary removeResult timetable_blocks vehicles
          (daysInMonth year month))

/-- The pipeline when the temp-file removal succeeds. -/
def app_summary (routes vehicles : List String) (year month : Nat) :
    Except PyError (List SummaryRow) :=
  app_run (.ok ()) routes vehicles year month

/-!  Specification-side functions.  `blocksFrom`/`dayLabel` describe the
block list the day loop produces as the run-length grouping of a per-day
label function; the equivalence is proved below (`dayLoop_eq_blocksFrom`). -/

/-- `blocks` exactly tile the day interval `[a, b]`: consecutive,
non-empty, gapless, starting at `a` and ending at `b`
(`a = b + 1` for the empty interval). -/
def tiles : List Block → Nat → Nat → Prop
  | [], a, b => a = b + 1
  | blk :: rest, a, b =>
    blk.start = a ∧ a ≤ blk.stop ∧ blk.stop ≤ b ∧ tiles rest (blk.stop + 1) b

/-- Number of days in `[1, d-1]` that belong to the holiday list `hol`
(each such day triggers one backup substitution). -/
def eventsBefore (hol : List Nat) (d : Nat) : Nat :=
  (List.range' 1 (d - 1)).countP (fun x => decide (x ∈ hol))

/-- Number of holiday substitutions a route with holiday list `hol`
performs during the whole month. -/
def eventsTotal (hol : List Nat) (N : Nat) : Nat := eventsBefore hol (N + 1)

/-- The vehicle label the day loop assigns to day `d` of a route with
fixed vehicle `v` and holiday list `hol`, when the shared backup index
was `k` (mod `backup.length`) on day 1 of this route. -/
def dayLabel (hol : List Nat) (backup : List String) (v : String)
    (k : Nat) (d : Nat) : String :=
  if d ∈ hol then
    backup.getD ((k + eventsBefore hol d) % backup.length) "" ++ " (H)"
  else v

/-- Run-length grouping of a label sequence into blocks: the labels are
those of days `day, day+1, ...` and the currently open block is
`[start, day-1]` with label `cur`. -/
def blocksFrom : Nat → Nat → String → List String → List Block
  | day, start, cur, [] => [⟨start, day - 1, cur⟩]
  | day, start, cur, l :: ls =>
    if l = cur then blocksFrom (day + 1) start cur ls
    else ⟨start, day - 1, cur⟩ :: blocksFrom (day + 1) day l ls

/-- The block list of one route, described from the day labels. -/
def routeBlocksSpec (hol : List Nat) (backup : List String) (v : String)
    (k N : Nat) : List Block :=
  blocksFrom 1 1 v ((List.range' 1 N).map (dayLabel hol backup v k))

/-- The fixed vehicle of route `r_idx`:
`fixed_vehicles[r_idx % len(fixed_vehicles)]`. -/
def routeVehicleOf (fixed_vehicles : List String) (r_idx : Nat) : String :=
  fixed_vehicles.getD (r_idx % fixed_vehicles.length) ""

/-- The substitutions route `r_idx` performs during the month. -/
def routeEvents (fixed_vehicles : List String) (hol : String → List Nat)
    (N r_idx : Nat) : Nat :=
  eventsTotal (hol (routeVehicleOf fixed_vehicles r_idx)) N

/-- `sumEvents g base i = g base + g (base+1) + ... + g (base+i-1)`. -/
def sumEvents (g : Nat → Nat) (base : Nat) : Nat → Nat
  | 0 => 0
  | i + 1 => sumEvents g base i + g (base + i)

/-- Spec-level timetable: one entry per route, each described by
`routeBlocksSpec`, threading the cumulative substitution count `K`. -/
def specAux (fixed_vehicles backup_vehicles : List String)
    (hol : String → List Nat) (N : Nat) :
    List String → Nat → Nat → List (String × List Block)
  | [], _, _ => []
  | route :: rest, r_idx, K =>
    (route,
      routeBlocksSpec (hol (routeVehicleOf fixed_vehicles r_idx))
        backup_vehicles (routeVehicleOf fixed_vehicles r_idx) K N) ::
    specAux fixed_vehicles backup_vehicles hol N rest (r_idx + 1)
      (K + eventsTotal (hol (routeVehicleOf fixed_vehicles r_idx)) N)

/-- Modelled from the spec: "fixed modular-arithmetic holiday placement" -
the fixed vehicle at index `i` receives the days `(i % 5) + 6`,
`(i % 5) + 12`, ... in steps of 6, stopping at 5 holidays or once the
next day would exceed `N`. -/
def holidaySpecDays (i N : Nat) : List Nat :=
  (List.range' (i % 5 + 6) 5 6).takeWhile (fun d => decide (d ≤ N))

/-! Basic facts about the calendar, `pyIn`, and the holiday pre-assignment. -/

theorem daysInMonth_ge (y m : Nat) : 28 ≤ daysInMonth y m := by
  unfold daysInMonth
  split
  · split <;> omega
  · split <;> omega

theorem pyIn_refl (s : String) : pyIn s s = true := by
  simp [pyIn]

theorem pyIn_append_right (a b c : String) (h : pyIn a c = true) :
    pyIn a (b ++ c) = true := by
  simp only [pyIn, decide_eq_true_eq] at h ⊢
  have hbc : (b ++ c).toList = b.toList ++ c.toList := by
    simp [String.toList]
  obtain ⟨s, t, hst⟩ := h
  exact ⟨b.toList ++ s, t, by rw [hbc, ← hst]; simp⟩

theorem pyIn_hmark (b : String) : pyIn "(H)" (b ++ " (H)") = true :=
  pyIn_append_right _ _ _ (by decide)

theorem holidayExtendGo_isPrefix (N : Nat) :
    ∀ (fuel : Nat) (cur : List Nat) (day : Nat),
      cur <+: holidayExtendGo N fuel cur day := by
  intro fuel
  induction fuel with
  | zero => intro cur day; exact List.prefix_rfl
  | succ f ih =>
    intro cur day
    simp only [holidayExtendGo]
    split
    · exact List.IsPrefix.trans (List.prefix_append cur [day]) (ih _ _)
    · exact List.prefix_rfl

theorem holidayExtendGo_mem (N : Nat) :
    ∀ (fuel : Nat) (cur : List Nat) (day x : Nat),
      x ∈ holidayExtendGo N fuel cur day → x ∈ cur ∨ (day ≤ x ∧ x ≤ N) := by
  intro fuel
  induction fuel with
  | zero => intro cur day x hx; exact Or.inl hx
  | succ f ih =>
    intro cur day x hx
    simp only [holidayExtendGo] at hx
    split at hx
    · rcases ih _ _ _ hx with h | h
      · rcases List.mem_append.1 h with h' | h'
        · exact Or.inl h'
        · simp only [List.mem_singleton] at h'
          subst h'
          right; constructor
          · exact Nat.le_refl _
          · assumption
      · exact Or.inr ⟨by omega, h.2⟩
    · exact Or.inl hx

theorem holidayExtendGo_eq (N : Nat) :
    ∀ (fuel : Nat) (cur : List Nat) (day : Nat),
      holidayExtendGo N fuel cur day =
        cur ++ (List.range' day fuel 6).takeWhile (fun d => decide (d ≤ N)) := by
  intro fuel
  induction fuel with
  | zero => intro cur day; simp [holidayExtendGo]
  | succ f ih =>
    intro cur day
    rw [List.range'_succ]
    simp only [holidayExtendGo, List.takeWhile_cons]
    by_cases hd : day ≤ N
    · simp only [hd, decide_True, if_true]
      rw [ih]
      simp
    · simp [hd]

/-- Every entry of the pre-computed holiday dict lies in `[6, N]`. -/
theorem mkHolidays_bounds (fixed : List String) (N : Nat) :
    ∀ (v : String) (x : Nat), x ∈ mkHolidays fixed N v → 6 ≤ x ∧ x ≤ N := by
  unfold mkHolidays
  have main : ∀ (l : List (Nat × String)) (h : String → List Nat),
      (∀ w x, x ∈ h w → 6 ≤ x ∧ x ≤ N) →
      ∀ w x, x ∈ (l.foldl (fun h p =>
          dictUpdate h p.2 (holidayExtend (h p.2) (p.1 % 5 + 6) N)) h) w →
        6 ≤ x ∧ x ≤ N := by
    intro l
    induction l with
    | nil => intro h hh w x hx; exact hh w x hx
    | cons p rest ih =>
      intro h hh w x hx
      rw [List.foldl_cons] at hx
      refine ih _ ?_ w x hx
      intro w' x' hx'
      have hx'' : x' ∈ (if w' = p.2 then
          holidayExtend (h p.2) (p.1 % 5 + 6) N else h w') := hx'
      split at hx''
      · rcases holidayExtendGo_mem N _ _ _ _ hx'' with h' | h'
        · exact hh _ _ h'
        · exact ⟨by omega, h'.2⟩
      · exact hh _ _ hx''
  intro v x hx
  exact main _ _ (by intro w x' hx'; simp at hx') v x hx

/-- Values of the holiday dict only grow along the construction. -/
theorem mkHolidays_foldl_mono (N : Nat) :
    ∀ (l : List (Nat × String)) (h : String → List Nat) (w : String) (x : Nat),
      x ∈ h w →
      x ∈ (l.foldl (fun h p =>
          dictUpdate h p.2 (holidayExtend (h p.2) (p.1 % 5 + 6) N)) h) w := by
  intro l
  induction l with
  | nil => intro h w x hx; exact hx
  | cons p rest ih =>
    intro h w x hx
    rw [List.foldl_cons]
    refine ih _ w x ?_
    show x ∈ (if w = p.2 then holidayExtend (h p.2) (p.1 % 5 + 6) N else h w)
    split
    · next hw =>
      subst hw
      exact (holidayExtendGo_isPrefix N _ _ _).subset hx
    · exact hx

/-- Day 6 is always a pre-computed holiday of the first fixed vehicle. -/
theorem mkHolidays_six_mem (fixed : List String) (N : Nat)
    (hne : fixed ≠ []) (hN : 6 ≤ N) :
    6 ∈ mkHolidays fixed N (fixed.getD 0 "") := by
  obtain ⟨f, t, rfl⟩ : ∃ f t, fixed = f :: t := by
    cases fixed with
    | nil => exact absurd rfl hne
    | cons f t => exact ⟨f, t, rfl⟩
  unfold mkHolidays
  rw [List.enum_cons, List.foldl_cons]
  have hgd : (f :: t).getD 0 "" = f := rfl
  rw [hgd]
  apply mkHolidays_foldl_mono
  show 6 ∈ (if f = f then holidayExtend [] (0 % 5 + 6) N else [])
  rw [if_pos rfl]
  show 6 ∈ holidayExtendGo N 5 [] 6
  simp only [holidayExtendGo, if_pos hN]
  exact (holidayExtendGo_isPrefix N 4 ([] ++ [6]) 12).subset (by simp)

theorem holidayExtendGo_length_le (N : Nat) :
    ∀ (fuel : Nat) (cur : List Nat) (day : Nat),
      (holidayExtendGo N fuel cur day).length ≤ cur.length + fuel := by
  intro fuel
  induction fuel with
  | zero => intro cur day; simp [holidayExtendGo]
  | succ f ih =>
    intro cur day
    simp only [holidayExtendGo]
    split
    · have := ih (cur ++ [day]) (day + 6)
      simp only [List.length_append, List.length_singleton] at this
      omega
    · omega

/-- The `len < 5` guard of the while loop caps every holiday list at 5
entries, duplicate identifiers or not. -/
theorem mkHolidays_length_le (fixed : List String) (N : Nat) :
    ∀ v : String, (mkHolidays fixed N v).length ≤ 5 := by
  unfold mkHolidays
  have main : ∀ (l : List (Nat × String)) (h : String → List Nat),
      (∀ w, (h w).length ≤ 5) →
      ∀ w, ((l.foldl (fun h p =>
          dictUpdate h p.2 (holidayExtend (h p.2) (p.1 % 5 + 6) N)) h) w).length
        ≤ 5 := by
    intro l
    induction l with
    | nil => intro h hh w; exact hh w
    | cons p rest ih =>
      intro h hh w
      rw [List.foldl_cons]
      refine ih _ ?_ w
      intro w'
      show (if w' = p.2 then
          holidayExtend (h p.2) (p.1 % 5 + 6) N else h w').length ≤ 5
      split
      · have h1 := holidayExtendGo_length_le N (5 - (h p.2).length) (h p.2)
          (p.1 % 5 + 6)
        have h2 := hh p.2
        unfold holidayExtend
        omega
      · exact hh w'
  intro v
  exact main _ _ (by intro w; simp) v

/-- Keys not mentioned by the remaining iterations keep their value. -/
theorem mkHolidays_foldl_untouched (N : Nat) :
    ∀ (l : List (Nat × String)) (h : String → List Nat) (w : String),
      (∀ p ∈ l, p.2 ≠ w) →
      (l.foldl (fun h p =>
          dictUpdate h p.2 (holidayExtend (h p.2) (p.1 % 5 + 6) N)) h) w = h w := by
  intro l
  induction l with
  | nil => intro h w _; rfl
  | cons p rest ih =>
    intro h w hw
    rw [List.foldl_cons]
    rw [ih _ w (fun q hq => hw q (List.mem_cons_of_mem _ hq))]
    show (if w = p.2 then _ else h w) = h w
    rw [if_neg]
    exact fun hc => hw p (List.mem_cons_self _ _) (hc ▸ rfl)

/-- With pairwise-distinct keys, the dict value at a key listed at index
`i` is exactly one run of the while loop from day `(i % 5) + 6`. -/
theorem mkHolidays_foldl_nodup (N : Nat) :
    ∀ (l : List (Nat × String)) (h : String → List Nat) (i : Nat) (w : String),
      (i, w) ∈ l → (l.map Prod.snd).Nodup →
      (l.foldl (fun h p =>
          dictUpdate h p.2 (holidayExtend (h p.2) (p.1 % 5 + 6) N)) h) w =
        holidayExtend (h w) (i % 5 + 6) N := by
  intro l
  induction l with
  | nil => intro h i w hw _; simp at hw
  | cons p rest ih =>
    intro h i w hw hnd
    rw [List.map_cons, List.nodup_cons] at hnd
    rw [List.foldl_cons]
    rcases List.mem_cons.1 hw with heq | hmem
    · subst heq
      rw [mkHolidays_foldl_untouched N rest _ w
        (fun q hq hc =>
          hnd.1 (by rw [← hc]; exact List.mem_map.2 ⟨q, hq, rfl⟩))]
      show (if w = w then holidayExtend (h w) (i % 5 + 6) N else h w) =
        holidayExtend (h w) (i % 5 + 6) N
      rw [if_pos rfl]
    · have hne : w ≠ p.2 := by
        intro hc
        exact hnd.1 (hc ▸ List.mem_map_of_mem Prod.snd hmem)
      rw [ih _ i w hmem hnd.2]
      show holidayExtend ((if w = p.2 then _ else h w)) _ _ = _
      rw [if_neg hne]

/-- For distinct fixed vehicles the holiday dict is the modular rule:
vehicle `i` gets the days `(i % 5) + 6, (i % 5) + 12, ...`. -/
theorem mkHolidays_nodup_eq (fixed : List String) (N : Nat)
    (hnd : fixed.Nodup) (i : Nat) (hi : i < fixed.length) :
    mkHolidays fixed N (fixed.getD i "") = holidaySpecDays i N := by
  unfold mkHolidays
  have hget : fixed.get? i = some (fixed.getD i "") := by
    rw [List.getD_eq_get? ]
    cases h : fixed.get? i with
    | none => rw [List.get?_eq_none] at h; omega
    | some a => rfl
  have hmem : (i, fixed.getD i "") ∈ fixed.enum := by
    rw [List.mem_enum_iff_get?]
    exact hget
  have hsnd : (fixed.enum.map Prod.snd).Nodup := by
    rw [List.enum_map_snd]
    exact hnd
  rw [mkHolidays_foldl_nodup N fixed.enum _ i _ hmem hsnd]
  show holidayExtendGo N (5 - 0) [] (i % 5 + 6) = _
  rw [holidayExtendGo_eq]
  rfl

/-- The modular holiday rule never places two consecutive days. -/
theorem holidaySpecDays_no_consecutive (i N d : Nat)
    (h1 : d ∈ holidaySpecDays i N) (h2 : d + 1 ∈ holidaySpecDays i N) :
    False := by
  unfold holidaySpecDays at h1 h2
  have m1 := (List.takeWhile_sublist _).subset h1
  have m2 := (List.takeWhile_sublist _).subset h2
  rw [List.mem_range'] at m1 m2
  obtain ⟨a, _, ha⟩ := m1
  obtain ⟨b, _, hb⟩ := m2
  omega

theorem holidaySpecDays_nodup (i N : Nat) : (holidaySpecDays i N).Nodup :=
  (List.takeWhile_sublist _).nodup
    (List.nodup_range' (i % 5 + 6) 5 6 (by norm_num))

theorem holidaySpecDays_bounds (i N d : Nat) (h : d ∈ holidaySpecDays i N) :
    6 ≤ d ∧ d ≤ N := by
  unfold holidaySpecDays at h
  have hle : d ≤ N := by
    have := List.mem_takeWhile_imp h
    simpa using this
  have hm := (List.takeWhile_sublist _).subset h
  rw [List.mem_range'] at hm
  obtain ⟨a, _, ha⟩ := hm
  omega

theorem holidaySpecDays_length_le (i N : Nat) :
    (holidaySpecDays i N).length ≤ 5 := by
  have hs : List.Sublist ((List.range' (i % 5 + 6) 5 6).takeWhile
      (fun d => decide (d ≤ N))) (List.range' (i % 5 + 6) 5 6) :=
    List.takeWhile_sublist _
  have := hs.length_le
  simpa using this

/-- Counting, over the days of the month, membership in a duplicate-free
list of in-range days gives the list's length. -/
theorem countP_mem_eq_length (l : List Nat) (N : Nat) (hnd : l.Nodup)
    (hb : ∀ x ∈ l, 1 ≤ x ∧ x ≤ N) :
    (List.range' 1 N).countP (fun x => decide (x ∈ l)) = l.length := by
  rw [List.countP_eq_length_filter]
  have hperm : List.Perm ((List.range' 1 N).filter (fun x => decide (x ∈ l))) l := by
    rw [List.perm_ext_iff_of_nodup ((List.nodup_range' _ _).filter _) hnd]
    intro a
    rw [List.mem_filter]
    simp only [List.mem_range'_1, decide_eq_true_eq]
    constructor
    · exact fun h => h.2
    · intro ha
      have := hb a ha
      exact ⟨⟨this.1, by omega⟩, ha⟩
  exact hperm.length_eq

/-! Step lemmas for the day loop, one per branch of the loop body. -/

theorem dayLoop_cons_hol (hol : List Nat) (backup : List String) (v : String)
    (N day : Nat) (rest : List Nat) (start : Nat) (cur : String) (bi : Nat)
    (blocks : List Block) (b : String)
    (hd : day ∈ hol) (hb : backup.get? bi = some b) :
    dayLoop hol backup v N (day :: rest) start cur bi blocks =
      (if (b ++ " (H)") = cur then
        dayLoop hol backup v N rest start cur ((bi + 1) % backup.length)
          (if day = N then blocks ++ [⟨start, day, cur⟩] else blocks)
      else
        dayLoop hol backup v N rest day (b ++ " (H)") ((bi + 1) % backup.length)
          (if day = N then
            blocks ++ [⟨start, day - 1, cur⟩] ++ [⟨day, day, b ++ " (H)"⟩]
          else blocks ++ [⟨start, day - 1, cur⟩])) := by
  simp only [dayLoop, if_pos hd, hb]

theorem dayLoop_cons_hol_err (hol : List Nat) (backup : List String)
    (v : String) (N day : Nat) (rest : List Nat) (start : Nat) (cur : String)
    (bi : Nat) (blocks : List Block)
    (hd : day ∈ hol) (hb : backup.get? bi = none) :
    dayLoop hol backup v N (day :: rest) start cur bi blocks =
      .error .indexError := by
  simp only [dayLoop, if_pos hd, hb]

theorem dayLoop_cons_nothol (hol : List Nat) (backup : List String)
    (v : String) (N day : Nat) (rest : List Nat) (start : Nat) (cur : String)
    (bi : Nat) (blocks : List Block) (hd : day ∉ hol) :
    dayLoop hol backup v N (day :: rest) start cur bi blocks =
      (if v = cur then
        dayLoop hol backup v N rest start cur bi
          (if day = N then blocks ++ [⟨start, day, cur⟩] else blocks)
      else
        dayLoop hol backup v N rest day v bi
          (if day = N then
            blocks ++ [⟨start, day - 1, cur⟩] ++ [⟨day, day, v⟩]
          else blocks ++ [⟨start, day - 1, cur⟩])) := by
  simp only [dayLoop, if_neg hd]

theorem eventsBefore_succ (hol : List Nat) (day : Nat) (hday : 1 ≤ day) :
    eventsBefore hol (day + 1) =
      eventsBefore hol day + (if day ∈ hol then 1 else 0) := by
  unfold eventsBefore
  have h1 : day + 1 - 1 = 1 + (day - 1) := by omega
  rw [h1, ← List.range'_append_1 1 (day - 1) 1, List.countP_append]
  have h2 : List.range' (1 + (day - 1)) 1 = [day] := by
    have h3 : 1 + (day - 1) = day := by omega
    rw [h3]
    rfl
  rw [h2]
  simp [List.countP_cons]

theorem get?_getD_str (l : List String) (i : Nat) (hi : i < l.length) :
    l.get? i = some (l.getD i "") := by
  rw [List.getD_eq_get?]
  cases h : l.get? i with
  | none => rw [List.get?_eq_none] at h; omega
  | some a => rfl

/-- The day loop is run-length grouping of the per-day labels: starting at
`day` with `day + len = N + 1` remaining days, open block `[start, day-1]`
labelled `cur`, and the backup index in its invariant form, it succeeds and
appends exactly `blocksFrom` of the label sequence. -/
theorem dayLoop_eq_blocksFrom (hol : List Nat) (backup : List String)
    (v : String) (N : Nat) (hL : backup ≠ []) (k : Nat) :
    ∀ (len : Nat), 1 ≤ len → ∀ (day : Nat), 1 ≤ day → day + len = N + 1 →
      ∀ (start : Nat) (cur : String) (blocks : List Block),
      dayLoop hol backup v N (List.range' day len) start cur
          ((k + eventsBefore hol day) % backup.length) blocks
        = .ok (blocks ++ blocksFrom day start cur
            ((List.range' day len).map (dayLabel hol backup v k)),
          (k + eventsTotal hol N) % backup.length) := by
  have hLpos : 0 < backup.length := List.length_pos.2 hL
  intro len
  induction len with
  | zero => intro h; exact absurd h (by omega)
  | succ len' ih =>
    intro _ day hday hsum start cur blocks
    rw [List.range'_succ, List.map_cons]
    by_cases hd : day ∈ hol
    · -- holiday day: backup substitution, index advances
      have hget : backup.get? ((k + eventsBefore hol day) % backup.length)
          = some (backup.getD
              ((k + eventsBefore hol day) % backup.length) "") :=
        get?_getD_str _ _ (Nat.mod_lt _ hLpos)
      rw [dayLoop_cons_hol hol backup v N day _ start cur _ blocks _ hd hget]
      have hlabel : dayLabel hol backup v k day
          = backup.getD ((k + eventsBefore hol day) % backup.length) ""
              ++ " (H)" := by
        unfold dayLabel
        rw [if_pos hd]
      rw [hlabel]
      have hbi : ((k + eventsBefore hol day) % backup.length + 1) %
            backup.length
          = (k + eventsBefore hol (day + 1)) % backup.length := by
        rw [Nat.mod_add_mod, eventsBefore_succ hol day hday, if_pos hd]
        congr 1
      rw [hbi]
      simp only [blocksFrom]
      by_cases hc : backup.getD
          ((k + eventsBefore hol day) % backup.length) "" ++ " (H)" = cur
      · rw [if_pos hc, if_pos hc]
        rcases Nat.eq_zero_or_pos len' with hlast | hpos
        · subst hlast
          have hdN : day = N := by omega
          rw [hdN, if_pos rfl]
          simp only [List.range'_zero, List.map_nil, blocksFrom, dayLoop]
          rw [show N + 1 - 1 = N from by omega]
          rfl
        · rw [if_neg (show ¬day = N from by omega)]
          rw [ih hpos (day + 1) (by omega) (by omega) start cur blocks]
      · rw [if_neg hc, if_neg hc]
        rcases Nat.eq_zero_or_pos len' with hlast | hpos
        · subst hlast
          have hdN : day = N := by omega
          rw [hdN, if_pos rfl]
          simp only [List.range'_zero, List.map_nil, blocksFrom, dayLoop]
          rw [show N + 1 - 1 = N from by omega]
          simp [List.append_assoc, eventsTotal]
        · rw [if_neg (show ¬day = N from by omega)]
          have hrec := ih hpos (day + 1) (by omega) (by omega) day
            (backup.getD ((k + eventsBefore hol day) % backup.length) ""
              ++ " (H)") (blocks ++ [(⟨start, day - 1, cur⟩ : Block)])
          rw [hrec]
          simp [List.append_assoc]
    · -- ordinary day: the fixed vehicle serves, index unchanged
      rw [dayLoop_cons_nothol hol backup v N day _ start cur _ blocks hd]
      have hlabel : dayLabel hol backup v k day = v := by
        unfold dayLabel
        rw [if_neg hd]
      rw [hlabel]
      have hbi : (k + eventsBefore hol day) % backup.length
          = (k + eventsBefore hol (day + 1)) % backup.length := by
        rw [eventsBefore_succ hol day hday, if_neg hd]
        rfl
      rw [hbi]
      simp only [blocksFrom]
      by_cases hc : v = cur
      · rw [if_pos hc, if_pos hc]
        rcases Nat.eq_zero_or_pos len' with hlast | hpos
        · subst hlast
          have hdN : day = N := by omega
          rw [hdN, if_pos rfl]
          simp only [List.range'_zero, List.map_nil, blocksFrom, dayLoop]
          rw [show N + 1 - 1 = N from by omega]
          rfl
        · rw [if_neg (show ¬day = N from by omega)]
          rw [ih hpos (day + 1) (by omega) (by omega) start cur blocks]
      · rw [if_neg hc, if_neg hc]
        rcases Nat.eq_zero_or_pos len' with hlast | hpos
        · subst hlast
          have hdN : day = N := by omega
          rw [hdN, if_pos rfl]
          simp only [List.range'_zero, List.map_nil, blocksFrom, dayLoop]
          rw [show N + 1 - 1 = N from by omega]
          simp [List.append_assoc, eventsTotal]
        · rw [if_neg (show ¬day = N from by omega)]
          have hrec := ih hpos (day + 1) (by omega) (by omega) day v
            (blocks ++ [(⟨start, day - 1, cur⟩ : Block)])
          rw [hrec]
          simp [List.append_assoc]

/-- The route loop succeeds and produces the spec-level timetable whenever
there is at least one fixed and one backup vehicle. -/
theorem routeLoop_eq_specAux (fixed backup : List String)
    (hol : String → List Nat) (N : Nat)
    (hf : fixed ≠ []) (hL : backup ≠ []) (hN : 1 ≤ N) :
    ∀ (rem : List String) (r_idx K : Nat),
      routeLoop fixed backup hol N rem r_idx (K % backup.length)
        = .ok (specAux fixed backup hol N rem r_idx K) := by
  intro rem
  induction rem with
  | nil => intro r_idx K; rfl
  | cons route rest ih =>
    intro r_idx K
    have hflen : ¬fixed.length = 0 := by
      intro hc
      exact hf (List.length_eq_zero.1 hc)
    have hday := dayLoop_eq_blocksFrom (hol (routeVehicleOf fixed r_idx))
      backup (routeVehicleOf fixed r_idx) N hL K N hN 1 (by omega)
      (by omega) 1 (routeVehicleOf fixed r_idx) []
    have h0 : (K + eventsBefore (hol (routeVehicleOf fixed r_idx)) 1) %
        backup.length = K % backup.length := rfl
    rw [h0] at hday
    unfold routeVehicleOf at hday
    have ihK := ih (r_idx + 1)
      (K + eventsTotal (hol (fixed.getD (r_idx % fixed.length) "")) N)
    simp only [routeLoop, if_neg hflen, hday, ihK]
    simp only [specAux, routeBlocksSpec, routeVehicleOf, List.nil_append]

/-- On success with a non-empty route list and strictly more vehicles than
routes, the timetable is exactly the spec-level `specAux`. -/
theorem generate_ok (routes vehicles : List String) (y m : Nat)
    (hr : routes ≠ []) (hv : routes.length < vehicles.length) :
    generate_block_timetable routes vehicles y m
      = .ok (specAux (vehicles.take routes.length)
          (vehicles.drop routes.length)
          (mkHolidays (vehicles.take routes.length) (daysInMonth y m))
          (daysInMonth y m) routes 0 0) := by
  have hrl : 0 < routes.length := List.length_pos.2 hr
  have hf : vehicles.take routes.length ≠ [] := by
    intro hc
    have h2 := congrArg List.length hc
    rw [List.length_take] at h2
    simp only [List.length_nil] at h2
    omega
  have hb : vehicles.drop routes.length ≠ [] := by
    intro hc
    rw [List.drop_eq_nil_iff] at hc
    omega
  have hN : 1 ≤ daysInMonth y m := by
    have := daysInMonth_ge y m
    omega
  have h := routeLoop_eq_specAux (vehicles.take routes.length)
    (vehicles.drop routes.length)
    (mkHolidays (vehicles.take routes.length) (daysInMonth y m))
    (daysInMonth y m) hf hb hN routes 0 0
  rw [Nat.zero_mod] at h
  exact h

theorem generate_nil (vehicles : List String) (y m : Nat) :
    generate_block_timetable [] vehicles y m = .ok [] := rfl

/-- With routes but no vehicles at all, `r_idx % len(fixed_vehicles)`
divides by zero. -/
theorem generate_zeroDiv (routes : List String) (y m : Nat)
    (hr : routes ≠ []) :
    generate_block_timetable routes [] y m = .error .zeroDivError := by
  obtain ⟨r0, rrest, rfl⟩ : ∃ a l, routes = a :: l := by
    cases routes with
    | nil => exact absurd rfl hr
    | cons a l => exact ⟨a, l, rfl⟩
  unfold generate_block_timetable
  rw [List.take_nil]
  simp [routeLoop]

theorem range'_one_split6 (N : Nat) (h : 6 ≤ N) :
    List.range' 1 N = 1 :: 2 :: 3 :: 4 :: 5 :: 6 :: List.range' 7 (N - 6) := by
  obtain ⟨M, rfl⟩ : ∃ M, N = M + 6 := ⟨N - 6, by omega⟩
  rw [show M + 6 = (M + 5) + 1 from rfl, List.range'_succ]
  rw [show M + 5 = (M + 4) + 1 from rfl, List.range'_succ]
  rw [show M + 4 = (M + 3) + 1 from rfl, List.range'_succ]
  rw [show M + 3 = (M + 2) + 1 from rfl, List.range'_succ]
  rw [show M + 2 = (M + 1) + 1 from rfl, List.range'_succ]
  rw [show M + 1 = M + 1 from rfl, List.range'_succ]
  norm_num
  omega

/-- With no backup vehicles, the day loop hits the first holiday (day 6 of
the first route) and raises `IndexError` on `backup_vehicles[0]`. -/
theorem dayLoop_no_backup_err (hol : List Nat) (v : String) (N : Nat)
    (hN : 28 ≤ N) (hlow : ∀ x ∈ hol, 6 ≤ x) (h6 : 6 ∈ hol) :
    dayLoop hol [] v N (List.range' 1 N) 1 v 0 [] = .error .indexError := by
  rw [range'_one_split6 N (by omega)]
  have hno : ∀ d : Nat, d < 6 → d ∉ hol := by
    intro d hd hmem
    have := hlow d hmem
    omega
  rw [dayLoop_cons_nothol hol [] v N 1 _ 1 v 0 [] (hno 1 (by omega))]
  rw [if_pos rfl, if_neg (show ¬(1 : Nat) = N from by omega)]
  rw [dayLoop_cons_nothol hol [] v N 2 _ 1 v 0 [] (hno 2 (by omega))]
  rw [if_pos rfl, if_neg (show ¬(2 : Nat) = N from by omega)]
  rw [dayLoop_cons_nothol hol [] v N 3 _ 1 v 0 [] (hno 3 (by omega))]
  rw [if_pos rfl, if_neg (show ¬(3 : Nat) = N from by omega)]
  rw [dayLoop_cons_nothol hol [] v N 4 _ 1 v 0 [] (hno 4 (by omega))]
  rw [if_pos rfl, if_neg (show ¬(4 : Nat) = N from by omega)]
  rw [dayLoop_cons_nothol hol [] v N 5 _ 1 v 0 [] (hno 5 (by omega))]
  rw [if_pos rfl, if_neg (show ¬(5 : Nat) = N from by omega)]
  exact dayLoop_cons_hol_err hol [] v N 6 _ 1 v 0 [] h6 rfl

/-- Routes but too few vehicles: the first holiday day indexes the empty
backup list and the whole generation fails with `IndexError`. -/
theorem generate_indexError (routes vehicles : List String) (y m : Nat)
    (hr : routes ≠ []) (hv0 : vehicles ≠ [])
    (hle : vehicles.length ≤ routes.length) :
    generate_block_timetable routes vehicles y m = .error .indexError := by
  obtain ⟨r0, rrest, rfl⟩ : ∃ a l, routes = a :: l := by
    cases routes with
    | nil => exact absurd rfl hr
    | cons a l => exact ⟨a, l, rfl⟩
  unfold generate_block_timetable
  rw [List.take_of_length_le hle, List.drop_eq_nil_of_le hle]
  have hflen : ¬vehicles.length = 0 := fun hc => hv0 (List.length_eq_zero.1 hc)
  have hN := daysInMonth_ge y m
  have h6 : 6 ∈ mkHolidays vehicles (daysInMonth y m) (vehicles.getD 0 "") :=
    mkHolidays_six_mem vehicles (daysInMonth y m) hv0 (by omega)
  have herr := dayLoop_no_backup_err
    (mkHolidays vehicles (daysInMonth y m) (vehicles.getD 0 ""))
    (vehicles.getD 0 "") (daysInMonth y m) hN
    (fun x hx =>
      (mkHolidays_bounds vehicles (daysInMonth y m) _ x hx).1) h6
  simp only [routeLoop, if_neg hflen, Nat.zero_mod, herr]

/-- Exhaustive description of successful runs: either there were no routes
and the timetable is empty, or there are strictly more vehicles than routes
and the timetable is the spec-level one. -/
theorem generate_ok_cases (routes vehicles : List String) (y m : Nat)
    (tb : List (String × List Block))
    (hok : generate_block_timetable routes vehicles y m = .ok tb) :
    (routes = [] ∧ tb = []) ∨
    (routes ≠ [] ∧ routes.length < vehicles.length ∧
      tb = specAux (vehicles.take routes.length) (vehicles.drop routes.length)
        (mkHolidays (vehicles.take routes.length) (daysInMonth y m))
        (daysInMonth y m) routes 0 0) := by
  by_cases hr : routes = []
  · left
    refine ⟨hr, ?_⟩
    subst hr
    rw [generate_nil] at hok
    exact (Except.ok.inj hok).symm
  · right
    by_cases hv : routes.length < vehicles.length
    · refine ⟨hr, hv, ?_⟩
      rw [generate_ok routes vehicles y m hr hv] at hok
      exact (Except.ok.inj hok).symm
    · exfalso
      by_cases hv0 : vehicles = []
      · subst hv0
        rw [generate_zeroDiv routes y m hr] at hok
        exact Except.noConfusion hok
      · rw [generate_indexError routes vehicles y m hr hv0 (by omega)] at hok
        exact Except.noConfusion hok

/-! Properties of the run-length grouping `blocksFrom`. -/

theorem blocksFrom_tiles :
    ∀ (labels : List String) (day start : Nat) (cur : String),
      1 ≤ start → start < day →
      tiles (blocksFrom day start cur labels) start
        (day - 1 + labels.length) := by
  intro labels
  induction labels with
  | nil =>
    intro day start cur h1 h2
    refine ⟨rfl, by show start ≤ day - 1; omega,
      by show day - 1 ≤ day - 1 + List.length ([] : List String); omega, ?_⟩
    rfl
  | cons l ls ih =>
    intro day start cur h1 h2
    simp only [blocksFrom, List.length_cons]
    by_cases hc : l = cur
    · rw [if_pos hc]
      have hmain := ih (day + 1) start cur h1 (by omega)
      have hlen : day - 1 + (ls.length + 1) = day + 1 - 1 + ls.length := by
        omega
      rw [hlen]
      exact hmain
    · rw [if_neg hc]
      refine ⟨rfl, by show start ≤ day - 1; omega,
        by show day - 1 ≤ day - 1 + (ls.length + 1); omega, ?_⟩
      have hmain := ih (day + 1) day l (by omega) (by omega)
      have e1 : (⟨start, day - 1, cur⟩ : Block).stop + 1 = day := by
        show day - 1 + 1 = day
        omega
      have e2 : day - 1 + (ls.length + 1) = day + 1 - 1 + ls.length := by
        omega
      rw [e1, e2]
      exact hmain

theorem tiles_start_le_stop :
    ∀ (l : List Block) (a b : Nat), tiles l a b →
      ∀ blk ∈ l, blk.start ≤ blk.stop := by
  intro l
  induction l with
  | nil => intro a b _ blk hblk; simp at hblk
  | cons x rest ih =>
    intro a b ht blk hblk
    simp only [tiles] at ht
    rcases List.mem_cons.1 hblk with rfl | hblk'
    · omega
    · exact ih _ _ ht.2.2.2 blk hblk'

theorem blocksFrom_vehicle (f : Nat → String) :
    ∀ (len day start : Nat) (cur : String),
      1 ≤ day →
      (∀ d, start ≤ d → d < day → f d = cur) →
      ∀ blk ∈ blocksFrom day start cur ((List.range' day len).map f),
        ∀ d, blk.start ≤ d → d ≤ blk.stop → blk.vehicle = f d := by
  intro len
  induction len with
  | zero =>
    intro day start cur hday hopen blk hblk d h1 h2
    simp only [List.range'_zero, List.map_nil, blocksFrom,
      List.mem_singleton] at hblk
    subst hblk
    exact (hopen d h1 (by simp at h2 ⊢; omega)).symm
  | succ len' ih =>
    intro day start cur hday hopen blk hblk d h1 h2
    rw [List.range'_succ, List.map_cons] at hblk
    simp only [blocksFrom] at hblk
    by_cases hc : f day = cur
    · rw [if_pos hc] at hblk
      refine ih (day + 1) start cur (by omega) ?_ blk hblk d h1 h2
      intro d' hd1 hd2
      rcases Nat.lt_or_ge d' day with h | h
      · exact hopen d' hd1 h
      · have hd : d' = day := by omega
        rw [hd, hc]
    · rw [if_neg hc] at hblk
      rcases List.mem_cons.1 hblk with rfl | hblk'
      · refine (hopen d h1 ?_).symm
        simp only at h2
        omega
      · refine ih (day + 1) day (f day) (by omega) ?_ blk hblk' d h1 h2
        intro d' hd1 hd2
        have hd : d' = day := by omega
        rw [hd]

theorem blocksFrom_head :
    ∀ (labels : List String) (day start : Nat) (cur : String),
      ∃ stp rest, blocksFrom day start cur labels = ⟨start, stp, cur⟩ :: rest := by
  intro labels
  induction labels with
  | nil => intro day start cur; exact ⟨day - 1, [], rfl⟩
  | cons l ls ih =>
    intro day start cur
    simp only [blocksFrom]
    by_cases hc : l = cur
    · rw [if_pos hc]
      exact ih (day + 1) start cur
    · rw [if_neg hc]
      exact ⟨day - 1, _, rfl⟩

theorem blocksFrom_chain :
    ∀ (labels : List String) (day start : Nat) (cur : String),
      List.Chain' (fun a b => a.vehicle ≠ b.vehicle)
        (blocksFrom day start cur labels) := by
  intro labels
  induction labels with
  | nil => intro day start cur; exact List.chain'_singleton _
  | cons l ls ih =>
    intro day start cur
    simp only [blocksFrom]
    by_cases hc : l = cur
    · rw [if_pos hc]
      exact ih _ _ _
    · rw [if_neg hc]
      rw [List.chain'_cons']
      refine ⟨?_, ih _ _ _⟩
      intro y hy
      obtain ⟨stp, rest, heq⟩ := blocksFrom_head ls (day + 1) day l
      rw [heq] at hy
      simp only [List.head?_cons, Option.mem_def, Option.some.injEq] at hy
      subst hy
      show cur ≠ l
      exact fun hcc => hc hcc.symm

/-- The summed lengths of the blocks whose label satisfies `P` equal the
number of days whose label satisfies `P` (plus the open block). -/
theorem blocksFrom_filter_sum (f : Nat → String) (P : String → Bool) :
    ∀ (len day start : Nat) (cur : String),
      1 ≤ day →
      (((blocksFrom day start cur ((List.range' day len).map f)).filter
          (fun blk => P blk.vehicle)).map blockLen).sum
        = (if P cur then (day : Int) - start else 0)
          + ((List.range' day len).countP (fun d => P (f d)) : Int) := by
  intro len
  induction len with
  | zero =>
    intro day start cur hday
    simp only [List.range'_zero, List.map_nil, blocksFrom, List.countP_nil,
      List.filter_cons, List.filter_nil]
    by_cases hp : P cur
    · simp [hp, blockLen]
      omega
    · simp [hp, blockLen]
  | succ len' ih =>
    intro day start cur hday
    rw [List.range'_succ, List.map_cons]
    simp only [blocksFrom]
    by_cases hc : f day = cur
    · rw [if_pos hc]
      rw [ih (day + 1) start cur (by omega)]
      rw [List.countP_cons, hc]
      by_cases hp : P cur
      · simp [hp]
        omega
      · simp [hp]
    · rw [if_neg hc]
      rw [List.filter_cons, List.countP_cons]
      have hrec := ih (day + 1) day (f day) (by omega)
      by_cases hp : P cur
      · by_cases hpf : P (f day)
        · simp [hp, hpf, blockLen, hrec]
          omega
        · simp [hp, hpf, blockLen, hrec]
          omega
      · by_cases hpf : P (f day)
        · simp [hp, hpf, blockLen, hrec]
          omega
        · simp [hp, hpf, blockLen, hrec]

/-! Properties of the spec-level timetable `specAux`. -/

theorem sumEvents_shift (g : Nat → Nat) :
    ∀ (i base : Nat),
      sumEvents g base (i + 1) = g base + sumEvents g (base + 1) i := by
  intro i
  induction i with
  | zero => intro base; simp [sumEvents]
  | succ i ih =>
    intro base
    show sumEvents g base (i + 1) + g (base + (i + 1)) = _
    rw [ih base]
    show _ = g base + (sumEvents g (base + 1) i + g (base + 1 + i))
    have e1 : base + (i + 1) = base + 1 + i := by omega
    rw [e1]
    omega

theorem specAux_fst (fixed backup : List String) (hol : String → List Nat)
    (N : Nat) :
    ∀ (rem : List String) (r_idx K : Nat),
      (specAux fixed backup hol N rem r_idx K).map Prod.fst = rem := by
  intro rem
  induction rem with
  | nil => intro r_idx K; rfl
  | cons route rest ih =>
    intro r_idx K
    simp only [specAux, List.map_cons, ih]

theorem specAux_get? (fixed backup : List String) (hol : String → List Nat)
    (N : Nat) :
    ∀ (rem : List String) (r_idx K i : Nat) (p : String × List Block),
      (specAux fixed backup hol N rem r_idx K).get? i = some p →
      rem.get? i = some p.1 ∧
      p.2 = routeBlocksSpec (hol (routeVehicleOf fixed (r_idx + i))) backup
        (routeVehicleOf fixed (r_idx + i))
        (K + sumEvents
          (fun j => eventsTotal (hol (routeVehicleOf fixed j)) N) r_idx i)
        N := by
  intro rem
  induction rem with
  | nil => intro r_idx K i p hp; simp [specAux] at hp
  | cons route rest ih =>
    intro r_idx K i p hp
    cases i with
    | zero =>
      simp only [specAux, List.get?_cons_zero, Option.some.injEq] at hp
      subst hp
      exact ⟨rfl, rfl⟩
    | succ i' =>
      simp only [specAux, List.get?_cons_succ] at hp
      have hmain := ih (r_idx + 1)
        (K + eventsTotal (hol (routeVehicleOf fixed r_idx)) N) i' p hp
      refine ⟨hmain.1, ?_⟩
      rw [hmain.2]
      have e1 : r_idx + 1 + i' = r_idx + (i' + 1) := by omega
      have e2 : K + eventsTotal (hol (routeVehicleOf fixed r_idx)) N +
          sumEvents (fun j => eventsTotal (hol (routeVehicleOf fixed j)) N)
            (r_idx + 1) i'
          = K + (eventsTotal (hol (routeVehicleOf fixed r_idx)) N +
            sumEvents (fun j => eventsTotal (hol (routeVehicleOf fixed j)) N)
              (r_idx + 1) i') := by omega
      rw [e1, e2, sumEvents_shift]

theorem specAux_mem (fixed backup : List String) (hol : String → List Nat)
    (N : Nat) (rem : List String) (r_idx K : Nat) (p : String × List Block)
    (hp : p ∈ specAux fixed backup hol N rem r_idx K) :
    ∃ j K', p.2 = routeBlocksSpec (hol (routeVehicleOf fixed j)) backup
      (routeVehicleOf fixed j) K' N := by
  obtain ⟨i, hi⟩ := List.mem_iff_get?.1 hp
  obtain ⟨_, h2⟩ := specAux_get? fixed backup hol N rem r_idx K i p hi
  exact ⟨r_idx + i, _, h2⟩

/-! Properties of one route's spec-level block list. -/

theorem dayLabel_not_hol (hol : List Nat) (backup : List String) (v : String)
    (k d : Nat) (hd : d ∉ hol) : dayLabel hol backup v k d = v := by
  unfold dayLabel
  rw [if_neg hd]

theorem dayLabel_hol (hol : List Nat) (backup : List String) (v : String)
    (k d : Nat) (hd : d ∈ hol) :
    dayLabel hol backup v k d =
      backup.getD ((k + eventsBefore hol d) % backup.length) "" ++ " (H)" := by
  unfold dayLabel
  rw [if_pos hd]

theorem dayLabel_hol_mem (hol : List Nat) (backup : List String) (v : String)
    (k d : Nat) (hL : backup ≠ []) (hd : d ∈ hol) :
    ∃ b ∈ backup, dayLabel hol backup v k d = b ++ " (H)" := by
  have hlt : (k + eventsBefore hol d) % backup.length < backup.length :=
    Nat.mod_lt _ (List.length_pos.2 hL)
  refine ⟨backup.getD ((k + eventsBefore hol d) % backup.length) "", ?_, ?_⟩
  · rw [List.getD_eq_getElem backup "" hlt]
    exact List.getElem_mem _
  · exact dayLabel_hol hol backup v k d hd

theorem routeBlocksSpec_tiles (hol : List Nat) (backup : List String)
    (v : String) (k N : Nat) (hN : 1 ≤ N) (h1 : 1 ∉ hol) :
    tiles (routeBlocksSpec hol backup v k N) 1 N := by
  unfold routeBlocksSpec
  obtain ⟨M, rfl⟩ : ∃ M, N = M + 1 := ⟨N - 1, by omega⟩
  rw [List.range'_succ, List.map_cons]
  rw [dayLabel_not_hol hol backup v k 1 h1]
  simp only [blocksFrom, if_pos rfl]
  have hmain := blocksFrom_tiles
    ((List.range' (1 + 1) M).map (dayLabel hol backup v k)) (1 + 1) 1 v
    (by omega) (by omega)
  have hlen : (1 + 1) - 1 +
      ((List.range' (1 + 1) M).map (dayLabel hol backup v k)).length
      = M + 1 := by
    simp
    omega
  rw [hlen] at hmain
  exact hmain

theorem routeBlocksSpec_vehicle (hol : List Nat) (backup : List String)
    (v : String) (k N : Nat) :
    ∀ blk ∈ routeBlocksSpec hol backup v k N,
      ∀ d, blk.start ≤ d → d ≤ blk.stop →
        blk.vehicle = dayLabel hol backup v k d := by
  intro blk hblk d h1 h2
  exact blocksFrom_vehicle (dayLabel hol backup v k) N 1 1 v (by omega)
    (fun d' hd1 hd2 => absurd hd2 (by omega)) blk hblk d h1 h2

theorem routeBlocksSpec_chain (hol : List Nat) (backup : List String)
    (v : String) (k N : Nat) :
    List.Chain' (fun a b => a.vehicle ≠ b.vehicle)
      (routeBlocksSpec hol backup v k N) :=
  blocksFrom_chain _ _ _ _

theorem routeVehicleOf_mem (fixed : List String) (i : Nat)
    (hne : fixed ≠ []) : routeVehicleOf fixed i ∈ fixed := by
  have hlen : i % fixed.length < fixed.length :=
    Nat.mod_lt _ (List.length_pos.2 hne)
  show fixed.getD (i % fixed.length) "" ∈ fixed
  rw [List.getD_eq_getElem fixed "" hlen]
  exact List.getElem_mem _

theorem take_ne_nil_of_lt (routes vehicles : List String)
    (hr : routes ≠ []) (hv : routes.length < vehicles.length) :
    vehicles.take routes.length ≠ [] := by
  intro hc
  have h2 := congrArg List.length hc
  rw [List.length_take] at h2
  simp only [List.length_nil] at h2
  have := List.length_pos.2 hr
  omega

/-! The claims. -/

/-- C1: for every spreadsheet with a non-empty route list and strictly more
vehicles than routes, and every year and month with `N` days,
`generate_block_timetable` succeeds and emits one block list per route in
which the blocks tile the days `1..N` exactly: contiguous, in increasing
order, no gap or overlap, first block starting at day 1 and last block
ending at day `N`. -/
theorem generate_block_timetable_covers_month (routes vehicles : List String)
    (year month : Nat) (hr : routes ≠ [])
    (hv : routes.length < vehicles.length) :
    ∃ tb, generate_block_timetable routes vehicles year month = .ok tb ∧
      tb.map Prod.fst = routes ∧
      ∀ p ∈ tb, tiles p.2 1 (daysInMonth year month) := by
  refine ⟨_, generate_ok routes vehicles year month hr hv, ?_, ?_⟩
  · exact specAux_fst _ _ _ _ routes 0 0
  · intro p hp
    obtain ⟨j, K', hspec⟩ := specAux_mem _ _ _ _ routes 0 0 p hp
    rw [hspec]
    refine routeBlocksSpec_tiles _ _ _ _ _
      (by have := daysInMonth_ge year month; omega) ?_
    intro hmem
    have := mkHolidays_bounds (vehicles.take routes.length)
      (daysInMonth year month) _ 1 hmem
    omega

theorem generate_block_timetable_covers_month_witness :
    (["R"] : List String) ≠ [] ∧ (["R"] : List String).length < (["A", "B"] : List String).length ∧
    (∃ tb, generate_block_timetable ["R"] ["A", "B"] 2025 2 = .ok tb ∧
      tb.map Prod.fst = ["R"] ∧
      ∀ p ∈ tb, tiles p.2 1 (daysInMonth 2025 2)) :=
  ⟨by decide, by decide,
    generate_block_timetable_covers_month ["R"] ["A", "B"] 2025 2
      (by decide) (by decide)⟩

/-- C6: in every successful run, consecutive blocks of a route's block list
carry different vehicle labels, so every block is maximal: it cannot be
merged with its neighbour while keeping one label per block. -/
theorem generate_block_timetable_blocks_maximal
    (routes vehicles : List String) (year month : Nat)
    (tb : List (String × List Block))
    (hok : generate_block_timetable routes vehicles year month = .ok tb) :
    ∀ p ∈ tb, List.Chain' (fun a b => a.vehicle ≠ b.vehicle) p.2 := by
  intro p hp
  rcases generate_ok_cases routes vehicles year month tb hok with
    ⟨_, rfl⟩ | ⟨_, _, rfl⟩
  · simp at hp
  · obtain ⟨j, K', hspec⟩ := specAux_mem _ _ _ _ routes 0 0 p hp
    rw [hspec]
    exact routeBlocksSpec_chain _ _ _ _ _

theorem generate_block_timetable_blocks_maximal_witness :
    generate_block_timetable ["R"] ["A", "B"] 2025 2 = .ok
      [("R", [⟨1, 5, "A"⟩, ⟨6, 6, "B (H)"⟩, ⟨7, 11, "A"⟩, ⟨12, 12, "B (H)"⟩,
        ⟨13, 17, "A"⟩, ⟨18, 18, "B (H)"⟩, ⟨19, 23, "A"⟩, ⟨24, 24, "B (H)"⟩,
        ⟨25, 28, "A"⟩])] ∧
    ∀ p ∈ ([("R", [⟨1, 5, "A"⟩, ⟨6, 6, "B (H)"⟩, ⟨7, 11, "A"⟩,
        ⟨12, 12, "B (H)"⟩, ⟨13, 17, "A"⟩, ⟨18, 18, "B (H)"⟩, ⟨19, 23, "A"⟩,
        ⟨24, 24, "B (H)"⟩, ⟨25, 28, "A"⟩])] :
        List (String × List Block)),
      List.Chain' (fun a b => a.vehicle ≠ b.vehicle) p.2 :=
  ⟨by rfl,
    generate_block_timetable_blocks_maximal ["R"] ["A", "B"] 2025 2 _
      (by rfl)⟩

/-- C5: in every successful run, route `i` is served by its regular fixed
vehicle `fixed_vehicles[i % len(fixed_vehicles)]` on every day outside that
vehicle's holiday set, and on every holiday day the block covering the day
carries a backup vehicle's identifier suffixed with " (H)" instead. -/
theorem generate_block_timetable_day_service (routes vehicles : List String)
    (year month : Nat) (tb : List (String × List Block))
    (hok : generate_block_timetable routes vehicles year month = .ok tb) :
    ∀ i p, tb.get? i = some p → ∀ blk ∈ p.2,
      ∀ d, blk.start ≤ d → d ≤ blk.stop →
      ((d ∉ mkHolidays (vehicles.take routes.length) (daysInMonth year month)
          (routeVehicleOf (vehicles.take routes.length) i) →
        blk.vehicle = routeVehicleOf (vehicles.take routes.length) i) ∧
       (d ∈ mkHolidays (vehicles.take routes.length) (daysInMonth year month)
          (routeVehicleOf (vehicles.take routes.length) i) →
        ∃ b ∈ vehicles.drop routes.length, blk.vehicle = b ++ " (H)")) := by
  intro i p hp blk hblk d h1 h2
  rcases generate_ok_cases routes vehicles year month tb hok with
    ⟨_, rfl⟩ | ⟨hr, hv, rfl⟩
  · simp at hp
  · obtain ⟨hfst, hsnd⟩ := specAux_get? _ _ _ _ routes 0 0 i p hp
    simp only [Nat.zero_add] at hsnd
    rw [hsnd] at hblk
    have hveh := routeBlocksSpec_vehicle _ _ _ _ _ blk hblk d h1 h2
    constructor
    · intro hd
      rw [hveh, dayLabel_not_hol _ _ _ _ _ hd]
    · intro hd
      have hL : vehicles.drop routes.length ≠ [] := by
        intro hc
        rw [List.drop_eq_nil_iff] at hc
        omega
      obtain ⟨b, hb, heq⟩ := dayLabel_hol_mem _ _
        (routeVehicleOf (vehicles.take routes.length) i) _ d hL hd
      exact ⟨b, hb, by rw [hveh, heq]⟩

theorem generate_block_timetable_day_service_witness :
    generate_block_timetable ["R"] ["A", "B"] 2025 2 = .ok
      [("R", [⟨1, 5, "A"⟩, ⟨6, 6, "B (H)"⟩, ⟨7, 11, "A"⟩, ⟨12, 12, "B (H)"⟩,
        ⟨13, 17, "A"⟩, ⟨18, 18, "B (H)"⟩, ⟨19, 23, "A"⟩, ⟨24, 24, "B (H)"⟩,
        ⟨25, 28, "A"⟩])] ∧
    (∀ i p, ([("R", [⟨1, 5, "A"⟩, ⟨6, 6, "B (H)"⟩, ⟨7, 11, "A"⟩,
        ⟨12, 12, "B (H)"⟩, ⟨13, 17, "A"⟩, ⟨18, 18, "B (H)"⟩, ⟨19, 23, "A"⟩,
        ⟨24, 24, "B (H)"⟩, ⟨25, 28, "A"⟩])] :
        List (String × List Block)).get? i = some p → ∀ blk ∈ p.2,
      ∀ d, blk.start ≤ d → d ≤ blk.stop →
      ((d ∉ mkHolidays ((["A", "B"] : List String).take
            (["R"] : List String).length) (daysInMonth 2025 2)
          (routeVehicleOf ((["A", "B"] : List String).take
            (["R"] : List String).length) i) →
        blk.vehicle = routeVehicleOf ((["A", "B"] : List String).take
          (["R"] : List String).length) i) ∧
       (d ∈ mkHolidays ((["A", "B"] : List String).take
            (["R"] : List String).length) (daysInMonth 2025 2)
          (routeVehicleOf ((["A", "B"] : List String).take
            (["R"] : List String).length) i) →
        ∃ b ∈ (["A", "B"] : List String).drop (["R"] : List String).length,
          blk.vehicle = b ++ " (H)"))) :=
  ⟨by rfl,
    generate_block_timetable_day_service ["R"] ["A", "B"] 2025 2 _ (by rfl)⟩

/-- C9: the backup rotation is one shared round-robin: in every successful
run, the holiday substitution at day `d` of route `i` receives backup
vehicle number `k mod len(backup_vehicles)`, where `k` counts the holiday
substitutions of all earlier routes plus those of route `i` before day `d`
(route-then-day order), starting from the first backup vehicle. -/
theorem generate_block_timetable_round_robin (routes vehicles : List String)
    (year month : Nat) (tb : List (String × List Block))
    (hok : generate_block_timetable routes vehicles year month = .ok tb) :
    ∀ i p, tb.get? i = some p → ∀ blk ∈ p.2,
      ∀ d, blk.start ≤ d → d ≤ blk.stop →
      d ∈ mkHolidays (vehicles.take routes.length) (daysInMonth year month)
        (routeVehicleOf (vehicles.take routes.length) i) →
      blk.vehicle = (vehicles.drop routes.length).getD
        ((sumEvents (fun j => eventsTotal
            (mkHolidays (vehicles.take routes.length) (daysInMonth year month)
              (routeVehicleOf (vehicles.take routes.length) j))
            (daysInMonth year month)) 0 i
          + eventsBefore (mkHolidays (vehicles.take routes.length)
              (daysInMonth year month)
              (routeVehicleOf (vehicles.take routes.length) i)) d)
          % (vehicles.drop routes.length).length) "" ++ " (H)" := by
  intro i p hp blk hblk d h1 h2 hd
  rcases generate_ok_cases routes vehicles year month tb hok with
    ⟨_, rfl⟩ | ⟨hr, hv, rfl⟩
  · simp at hp
  · obtain ⟨hfst, hsnd⟩ := specAux_get? _ _ _ _ routes 0 0 i p hp
    simp only [Nat.zero_add] at hsnd
    rw [hsnd] at hblk
    have hveh := routeBlocksSpec_vehicle _ _ _ _ _ blk hblk d h1 h2
    rw [hveh, dayLabel_hol _ _ _ _ _ hd]

theorem generate_block_timetable_round_robin_witness :
    generate_block_timetable ["R"] ["A", "B"] 2025 2 = .ok
      [("R", [⟨1, 5, "A"⟩, ⟨6, 6, "B (H)"⟩, ⟨7, 11, "A"⟩, ⟨12, 12, "B (H)"⟩,
        ⟨13, 17, "A"⟩, ⟨18, 18, "B (H)"⟩, ⟨19, 23, "A"⟩, ⟨24, 24, "B (H)"⟩,
        ⟨25, 28, "A"⟩])] ∧
    (∀ i p, ([("R", [⟨1, 5, "A"⟩, ⟨6, 6, "B (H)"⟩, ⟨7, 11, "A"⟩,
        ⟨12, 12, "B (H)"⟩, ⟨13, 17, "A"⟩, ⟨18, 18, "B (H)"⟩, ⟨19, 23, "A"⟩,
        ⟨24, 24, "B (H)"⟩, ⟨25, 28, "A"⟩])] :
        List (String × List Block)).get? i = some p → ∀ blk ∈ p.2,
      ∀ d, blk.start ≤ d → d ≤ blk.stop →
      d ∈ mkHolidays ((["A", "B"] : List String).take
          (["R"] : List String).length) (daysInMonth 2025 2)
        (routeVehicleOf ((["A", "B"] : List String).take
          (["R"] : List String).length) i) →
      blk.vehicle = ((["A", "B"] : List String).drop
          (["R"] : List String).length).getD
        ((sumEvents (fun j => eventsTotal
            (mkHolidays ((["A", "B"] : List String).take
                (["R"] : List String).length) (daysInMonth 2025 2)
              (routeVehicleOf ((["A", "B"] : List String).take
                (["R"] : List String).length) j)) (daysInMonth 2025 2)) 0 i
          + eventsBefore (mkHolidays ((["A", "B"] : List String).take
              (["R"] : List String).length) (daysInMonth 2025 2)
              (routeVehicleOf ((["A", "B"] : List String).take
                (["R"] : List String).length) i)) d)
          % ((["A", "B"] : List String).drop
              (["R"] : List String).length).length) "" ++ " (H)") :=
  ⟨by rfl,
    generate_block_timetable_round_robin ["R"] ["A", "B"] 2025 2 _ (by rfl)⟩

/-- C2 counterexample: with a fixed vehicle whose own identifier contains
the substring "(H)", a block whose label carries the "(H)" marker covers
days that are not in the holiday set (here day 1 of route 0). -/
theorem hmark_on_nonholiday_counterexample :
    ∃ tb, generate_block_timetable ["R"] ["X (H)", "Y"] 2025 2 = .ok tb ∧
      ∃ i p, tb.get? i = some p ∧ ∃ blk ∈ p.2,
        pyIn "(H)" blk.vehicle = true ∧
        ∃ d, blk.start ≤ d ∧ d ≤ blk.stop ∧
          d ∉ mkHolidays ((["X (H)", "Y"] : List String).take
              (["R"] : List String).length) (daysInMonth 2025 2)
            (routeVehicleOf ((["X (H)", "Y"] : List String).take
              (["R"] : List String).length) i) := by
  refine ⟨[("R", [⟨1, 5, "X (H)"⟩, ⟨6, 6, "Y (H)"⟩, ⟨7, 11, "X (H)"⟩,
      ⟨12, 12, "Y (H)"⟩, ⟨13, 17, "X (H)"⟩, ⟨18, 18, "Y (H)"⟩,
      ⟨19, 23, "X (H)"⟩, ⟨24, 24, "Y (H)"⟩, ⟨25, 28, "X (H)"⟩])],
    by rfl, 0, _, rfl, ⟨1, 5, "X (H)"⟩, by decide, by decide, 1, by decide,
    by decide, by decide⟩

/-- C2 (amended): provided no fixed vehicle identifier contains the
substring "(H)", every block whose label carries the "(H)" marker covers
only days in the holiday set of that route's fixed vehicle. -/
theorem hmark_only_on_holidays (routes vehicles : List String)
    (year month : Nat) (tb : List (String × List Block))
    (hok : generate_block_timetable routes vehicles year month = .ok tb)
    (hH : ∀ v ∈ vehicles.take routes.length, pyIn "(H)" v = false) :
    ∀ i p, tb.get? i = some p → ∀ blk ∈ p.2,
      pyIn "(H)" blk.vehicle = true →
      ∀ d, blk.start ≤ d → d ≤ blk.stop →
        d ∈ mkHolidays (vehicles.take routes.length) (daysInMonth year month)
          (routeVehicleOf (vehicles.take routes.length) i) := by
  intro i p hp blk hblk hmark d h1 h2
  rcases generate_ok_cases routes vehicles year month tb hok with
    ⟨_, rfl⟩ | ⟨hr, hv, rfl⟩
  · simp at hp
  · obtain ⟨hfst, hsnd⟩ := specAux_get? _ _ _ _ routes 0 0 i p hp
    simp only [Nat.zero_add] at hsnd
    rw [hsnd] at hblk
    have hveh := routeBlocksSpec_vehicle _ _ _ _ _ blk hblk d h1 h2
    by_contra hd
    rw [hveh, dayLabel_not_hol _ _ _ _ _ hd] at hmark
    rw [hH _ (routeVehicleOf_mem _ i
      (take_ne_nil_of_lt routes vehicles hr hv))] at hmark
    exact Bool.false_ne_true hmark

theorem hmark_only_on_holidays_witness :
    generate_block_timetable ["R"] ["A", "B"] 2025 2 = .ok
      [("R", [⟨1, 5, "A"⟩, ⟨6, 6, "B (H)"⟩, ⟨7, 11, "A"⟩, ⟨12, 12, "B (H)"⟩,
        ⟨13, 17, "A"⟩, ⟨18, 18, "B (H)"⟩, ⟨19, 23, "A"⟩, ⟨24, 24, "B (H)"⟩,
        ⟨25, 28, "A"⟩])] ∧
    (∀ v ∈ (["A", "B"] : List String).take (["R"] : List String).length,
      pyIn "(H)" v = false) ∧
    (∀ i p, ([("R", [⟨1, 5, "A"⟩, ⟨6, 6, "B (H)"⟩, ⟨7, 11, "A"⟩,
        ⟨12, 12, "B (H)"⟩, ⟨13, 17, "A"⟩, ⟨18, 18, "B (H)"⟩, ⟨19, 23, "A"⟩,
        ⟨24, 24, "B (H)"⟩, ⟨25, 28, "A"⟩])] :
        List (String × List Block)).get? i = some p → ∀ blk ∈ p.2,
      pyIn "(H)" blk.vehicle = true →
      ∀ d, blk.start ≤ d → d ≤ blk.stop →
        d ∈ mkHolidays ((["A", "B"] : List String).take
            (["R"] : List String).length) (daysInMonth 2025 2)
          (routeVehicleOf ((["A", "B"] : List String).take
            (["R"] : List String).length) i)) :=
  ⟨by rfl, by decide,
    hmark_only_on_holidays ["R"] ["A", "B"] 2025 2 _ (by rfl) (by decide)⟩

/-- C10 counterexample: with a duplicated fixed-vehicle identifier the
holiday dict merges the two while-loop runs, holidays land on consecutive
days 6 and 7, and with a single backup vehicle the two substitutions merge
into one "(H)"-marked block spanning two days. -/
theorem hmark_block_two_days_counterexample :
    ∃ tb, generate_block_timetable ["R1", "R2"] ["A", "A", "B"] 2025 2
        = .ok tb ∧
      ∃ p ∈ tb, ∃ blk ∈ p.2, pyIn "(H)" blk.vehicle = true ∧
        blk.start ≠ blk.stop := by
  refine ⟨[("R1", [⟨1, 5, "A"⟩, ⟨6, 7, "B (H)"⟩, ⟨8, 11, "A"⟩,
      ⟨12, 12, "B (H)"⟩, ⟨13, 17, "A"⟩, ⟨18, 18, "B (H)"⟩, ⟨19, 23, "A"⟩,
      ⟨24, 24, "B (H)"⟩, ⟨25, 28, "A"⟩]),
    ("R2", [⟨1, 5, "A"⟩, ⟨6, 7, "B (H)"⟩, ⟨8, 11, "A"⟩, ⟨12, 12, "B (H)"⟩,
      ⟨13, 17, "A"⟩, ⟨18, 18, "B (H)"⟩, ⟨19, 23, "A"⟩, ⟨24, 24, "B (H)"⟩,
      ⟨25, 28, "A"⟩])],
    by rfl, _, List.mem_cons_self _ _, ⟨6, 7, "B (H)"⟩, by decide, by decide,
    by decide⟩

/-- C10 (amended): provided the fixed vehicle identifiers are pairwise
distinct and none contains the substring "(H)", every block whose label
carries the "(H)" marker spans exactly one day. -/
theorem hmark_block_single_day (routes vehicles : List String)
    (year month : Nat) (tb : List (String × List Block))
    (hok : generate_block_timetable routes vehicles year month = .ok tb)
    (hnd : (vehicles.take routes.length).Nodup)
    (hH : ∀ v ∈ vehicles.take routes.length, pyIn "(H)" v = false) :
    ∀ i p, tb.get? i = some p → ∀ blk ∈ p.2,
      pyIn "(H)" blk.vehicle = true → blk.start = blk.stop := by
  intro i p hp blk hblk hmark
  rcases generate_ok_cases routes vehicles year month tb hok with
    ⟨_, rfl⟩ | ⟨hr, hv, rfl⟩
  · simp at hp
  · obtain ⟨hfst, hsnd⟩ := specAux_get? _ _ _ _ routes 0 0 i p hp
    simp only [Nat.zero_add] at hsnd
    rw [hsnd] at hblk
    have hfix : vehicles.take routes.length ≠ [] :=
      take_ne_nil_of_lt routes vehicles hr hv
    have hN : 1 ≤ daysInMonth year month := by
      have := daysInMonth_ge year month
      omega
    have h1notin : 1 ∉ mkHolidays (vehicles.take routes.length)
        (daysInMonth year month)
        (routeVehicleOf (vehicles.take routes.length) i) := by
      intro hmem
      have := mkHolidays_bounds _ _ _ 1 hmem
      omega
    have htiles := routeBlocksSpec_tiles
      (mkHolidays (vehicles.take routes.length) (daysInMonth year month)
        (routeVehicleOf (vehicles.take routes.length) i))
      (vehicles.drop routes.length)
      (routeVehicleOf (vehicles.take routes.length) i)
      (sumEvents (fun j => eventsTotal
          (mkHolidays (vehicles.take routes.length) (daysInMonth year month)
            (routeVehicleOf (vehicles.take routes.length) j))
          (daysInMonth year month)) 0 i)
      (daysInMonth year month) hN h1notin
    have hle := tiles_start_le_stop _ _ _ htiles blk hblk
    by_contra hne
    have hlt : blk.start < blk.stop := by omega
    have hveh := routeBlocksSpec_vehicle _ _ _ _ _ blk hblk
    have hin : ∀ d, blk.start ≤ d → d ≤ blk.stop →
        d ∈ mkHolidays (vehicles.take routes.length) (daysInMonth year month)
          (routeVehicleOf (vehicles.take routes.length) i) := by
      intro d hd1 hd2
      by_contra hdn
      have hv1 := hveh d hd1 hd2
      rw [hv1, dayLabel_not_hol _ _ _ _ _ hdn] at hmark
      rw [hH _ (routeVehicleOf_mem _ i hfix)] at hmark
      exact Bool.false_ne_true hmark
    have hmem1 := hin blk.start (Nat.le_refl _) (by omega)
    have hmem2 := hin (blk.start + 1) (by omega) (by omega)
    have hchar : mkHolidays (vehicles.take routes.length)
        (daysInMonth year month)
        (routeVehicleOf (vehicles.take routes.length) i)
        = holidaySpecDays (i % (vehicles.take routes.length).length)
            (daysInMonth year month) :=
      mkHolidays_nodup_eq (vehicles.take routes.length)
        (daysInMonth year month) hnd
        (i % (vehicles.take routes.length).length)
        (Nat.mod_lt _ (List.length_pos.2 hfix))
    rw [hchar] at hmem1 hmem2
    exact holidaySpecDays_no_consecutive _ _ _ hmem1 hmem2

theorem hmark_block_single_day_witness :
    generate_block_timetable ["R"] ["A", "B"] 2025 2 = .ok
      [("R", [⟨1, 5, "A"⟩, ⟨6, 6, "B (H)"⟩, ⟨7, 11, "A"⟩, ⟨12, 12, "B (H)"⟩,
        ⟨13, 17, "A"⟩, ⟨18, 18, "B (H)"⟩, ⟨19, 23, "A"⟩, ⟨24, 24, "B (H)"⟩,
        ⟨25, 28, "A"⟩])] ∧
    ((["A", "B"] : List String).take (["R"] : List String).length).Nodup ∧
    (∀ v ∈ (["A", "B"] : List String).take (["R"] : List String).length,
      pyIn "(H)" v = false) ∧
    (∀ i p, ([("R", [⟨1, 5, "A"⟩, ⟨6, 6, "B (H)"⟩, ⟨7, 11, "A"⟩,
        ⟨12, 12, "B (H)"⟩, ⟨13, 17, "A"⟩, ⟨18, 18, "B (H)"⟩, ⟨19, 23, "A"⟩,
        ⟨24, 24, "B (H)"⟩, ⟨25, 28, "A"⟩])] :
        List (String × List Block)).get? i = some p → ∀ blk ∈ p.2,
      pyIn "(H)" blk.vehicle = true → blk.start = blk.stop) :=
  ⟨by rfl, by decide, by decide,
    hmark_block_single_day ["R"] ["A", "B"] 2025 2 _ (by rfl) (by decide)
      (by decide)⟩

/-- C4 counterexample: with a duplicated fixed-vehicle identifier the
holiday dict entry is shared, so the vehicle at index 1 does not receive
the modular-rule days (it receives `[6, 12, 18, 24, 7]`, not
`[7, 13, 19, 25]`, which is also not sorted in increasing order). -/
theorem holiday_rule_counterexample :
    mkHolidays ((["A", "A", "B"] : List String).take
        (["R1", "R2"] : List String).length) (daysInMonth 2025 2)
      (((["A", "A", "B"] : List String).take
        (["R1", "R2"] : List String).length).getD 1 "")
      = [6, 12, 18, 24, 7] ∧
    holidaySpecDays 1 (daysInMonth 2025 2) = [7, 13, 19, 25] ∧
    ([6, 12, 18, 24, 7] : List Nat) ≠ [7, 13, 19, 25] := by
  refine ⟨by decide, by decide, by decide⟩

/-- C4 (amended): provided the fixed vehicle identifiers are pairwise
distinct, the fixed vehicle at index `i` receives exactly the holiday days
`(i % 5) + 6, (i % 5) + 12, ...` in steps of 6, stopping at 5 holidays or
once the next day would exceed the number `N` of days of the month;
unconditionally - duplicate identifiers or not - every pre-computed holiday
day lies in `6..N` and every holiday list has at most 5 entries. -/
theorem holiday_rule_of_nodup (routes vehicles : List String)
    (year month : Nat) :
    ((vehicles.take routes.length).Nodup →
      ∀ i, i < (vehicles.take routes.length).length →
        mkHolidays (vehicles.take routes.length) (daysInMonth year month)
            ((vehicles.take routes.length).getD i "")
          = holidaySpecDays i (daysInMonth year month)) ∧
    (∀ v : String,
      ∀ d ∈ mkHolidays (vehicles.take routes.length) (daysInMonth year month)
        v, 6 ≤ d ∧ d ≤ daysInMonth year month) ∧
    (∀ v : String,
      (mkHolidays (vehicles.take routes.length) (daysInMonth year month)
        v).length ≤ 5) := by
  refine ⟨?_, ?_, ?_⟩
  · intro hnd i hi
    exact mkHolidays_nodup_eq (vehicles.take routes.length)
      (daysInMonth year month) hnd i hi
  · intro v d hd
    exact mkHolidays_bounds _ _ _ d hd
  · intro v
    exact mkHolidays_length_le _ _ v

theorem holiday_rule_of_nodup_witness :
    (mkHolidays ((["A", "B", "C"] : List String).take
        (["R1", "R2"] : List String).length) (daysInMonth 2025 3)
        (((["A", "B", "C"] : List String).take
          (["R1", "R2"] : List String).length).getD 1 "")
      = holidaySpecDays 1 (daysInMonth 2025 3)) ∧
    (∀ d ∈ mkHolidays ((["A", "A", "B"] : List String).take
        (["R1", "R2"] : List String).length) (daysInMonth 2025 2) "A",
      6 ≤ d ∧ d ≤ daysInMonth 2025 2) ∧
    ((mkHolidays ((["A", "A", "B"] : List String).take
        (["R1", "R2"] : List String).length) (daysInMonth 2025 2)
        "A").length ≤ 5) :=
  ⟨(holiday_rule_of_nodup ["R1", "R2"] ["A", "B", "C"] 2025 3).1 (by decide)
      1 (by decide),
    (holiday_rule_of_nodup ["R1", "R2"] ["A", "A", "B"] 2025 2).2.1 "A",
    (holiday_rule_of_nodup ["R1", "R2"] ["A", "A", "B"] 2025 2).2.2 "A"⟩

/-- C8 counterexample: with a non-empty route list and an empty vehicle
list (which is "no longer than the route list"), the failure is a
division-by-zero error from `r_idx % len(fixed_vehicles)`, raised before
any day is processed - not an indexing error on a holiday day. -/
theorem no_vehicles_zero_div_counterexample :
    generate_block_timetable ["R"] ([] : List String) 2025 1
        = .error .zeroDivError ∧
      PyError.zeroDivError ≠ PyError.indexError := by
  refine ⟨by rfl, by decide⟩

/-- C8 (amended): with a non-empty route list and a non-empty vehicle list
no longer than the route list, the backup list is empty and
`generate_block_timetable` fails with an indexing error (raised on the
first holiday day, day 6 of the first route); with an empty vehicle list it
fails with a division-by-zero error instead.  Either way, a successful run
requires strictly more vehicles than routes. -/
theorem no_backup_index_error (routes vehicles : List String)
    (year month : Nat) (hr : routes ≠ []) (hv0 : vehicles ≠ [])
    (hle : vehicles.length ≤ routes.length) :
    generate_block_timetable routes vehicles year month
      = .error .indexError := by
  exact generate_indexError routes vehicles year month hr hv0 hle

theorem no_backup_index_error_witness :
    (["R1", "R2"] : List String) ≠ [] ∧
    (["A"] : List String) ≠ [] ∧
    (["A"] : List String).length ≤ (["R1", "R2"] : List String).length ∧
    generate_block_timetable ["R1", "R2"] ["A"] 2025 1
      = .error .indexError :=
  ⟨by decide, by decide, by decide,
    no_backup_index_error ["R1", "R2"] ["A"] 2025 1 (by decide) (by decide)
      (by decide)⟩

/-- C7: the `try: os.remove(...) except Exception: pass` cleanup after the
PDF bytes are read swallows any removal failure: whatever error the removal
raises, the run does not propagate it and still produces exactly the
vehicle summary (and hence its CSV) of a run whose removal succeeded. -/
theorem cleanup_failure_ignored (e : PyError) (routes vehicles : List String)
    (year month : Nat) :
    app_run (.error e) routes vehicles year month
      = app_summary routes vehicles year month := rfl

/-! Machinery for the summary claim. -/

theorem countP_not_eq (p : Nat → Bool) (l : List Nat) :
    l.countP (fun a => !p a) = l.length - l.countP p := by
  induction l with
  | nil => rfl
  | cons x rest ih =>
    have hcle : rest.countP p ≤ rest.length := List.countP_le_length p
    by_cases hx : p x
    · simp [List.countP_cons, hx, ih]
      try omega
    · simp [List.countP_cons, hx, ih]
      try omega

/-- Per-route contribution to `work_days` of vehicle `v`: the whole month
minus the route's holidays when the route is served by `v`, zero
otherwise. -/
theorem routeBlocksSpec_work_sum (hol : List Nat) (backup : List String)
    (u v : String) (k N : Nat) (hN : 1 ≤ N)
    (hHu : pyIn "(H)" u = false)
    (hvu : pyIn v u = true → u = v) :
    (((routeBlocksSpec hol backup u k N).filter (fun blk =>
        pyIn v blk.vehicle && !(pyIn "(H)" blk.vehicle))).map blockLen).sum
      = if u = v then
          (N : Int)
            - ((List.range' 1 N).countP (fun d => decide (d ∈ hol)) : Int)
        else 0 := by
  unfold routeBlocksSpec
  rw [blocksFrom_filter_sum (dayLabel hol backup u k)
    (fun s => pyIn v s && !(pyIn "(H)" s)) N 1 1 u (by omega)]
  have hfirst : (if (pyIn v u && !(pyIn "(H)" u)) = true then
      ((1 : Nat) : Int) - ((1 : Nat) : Int) else 0) = 0 := by
    split <;> simp
  rw [hfirst]
  have hpt : ∀ d ∈ List.range' 1 N,
      ((pyIn v (dayLabel hol backup u k d)
          && !(pyIn "(H)" (dayLabel hol backup u k d))) = true)
        ↔ ((if u = v then !(decide (d ∈ hol)) else false) = true) := by
    intro d _
    by_cases hd : d ∈ hol
    · rw [dayLabel_hol hol backup u k d hd]
      simp [pyIn_hmark, hd]
    · rw [dayLabel_not_hol hol backup u k d hd]
      by_cases huv : u = v
      · subst huv
        simp [pyIn_refl, hHu, hd]
      · simp [hd, huv]
        intro hin
        exact absurd (hvu hin) huv
  rw [List.countP_congr hpt]
  by_cases huv : u = v
  · simp only [if_pos huv]
    have hcnt : (List.range' 1 N).countP (fun d => !(decide (d ∈ hol)))
        = N - (List.range' 1 N).countP (fun d => decide (d ∈ hol)) := by
      have := countP_not_eq (fun d => decide (d ∈ hol)) (List.range' 1 N)
      simpa using this
    rw [hcnt]
    have hle : (List.range' 1 N).countP (fun d => decide (d ∈ hol)) ≤ N := by
      have h2 : (List.range' 1 N).countP (fun d => decide (d ∈ hol))
          ≤ (List.range' 1 N).length := List.countP_le_length _
      simpa using h2
    omega
  · simp only [if_neg huv]
    simp

theorem pyDict_go_nodup :
    ∀ (l acc : List (String × List Block)),
      ((acc ++ l).map Prod.fst).Nodup →
      l.foldl (fun acc p =>
        if acc.any (fun q => decide (q.1 = p.1)) then
          acc.map (fun q => if q.1 = p.1 then (q.1, p.2) else q)
        else acc ++ [p]) acc = acc ++ l := by
  intro l
  induction l with
  | nil => intro acc _; simp
  | cons p rest ih =>
    intro acc hnd
    rw [List.foldl_cons]
    have hkey : acc.any (fun q => decide (q.1 = p.1)) = false := by
      rw [List.any_eq_false]
      intro q hq
      simp only [decide_eq_true_eq]
      intro hc
      have h1 : q.1 ∈ acc.map Prod.fst := List.mem_map.2 ⟨q, hq, rfl⟩
      have h2 : p.1 ∈ (p :: rest).map Prod.fst := by simp
      rw [List.map_append] at hnd
      have hdisj := (List.nodup_append.1 hnd).2.2
      refine hdisj h1 ?_
      rw [hc]
      exact h2
    rw [hkey]
    simp only [Bool.false_eq_true, if_false]
    have hnd2 : (((acc ++ [p]) ++ rest).map Prod.fst).Nodup := by
      have he : (acc ++ [p]) ++ rest = acc ++ p :: rest := by simp
      rw [he]
      exact hnd
    rw [ih (acc ++ [p]) hnd2]
    simp

/-- Python dict construction is the identity on duplicate-free keys. -/
theorem pyDict_self (l : List (String × List Block))
    (hnd : (l.map Prod.fst).Nodup) : pyDict l = l := by
  unfold pyDict
  have h := pyDict_go_nodup l [] (by simpa using hnd)
  simpa using h

theorem workDaysFor_cons (a : String) (B : List Block)
    (tl : List (String × List Block)) (v : String) :
    workDaysFor ((a, B) :: tl) v
      = ((B.filter (fun blk => pyIn v blk.vehicle
          && !(pyIn "(H)" blk.vehicle))).map blockLen).sum
        + workDaysFor tl v := by
  unfold workDaysFor
  rw [List.map_cons, List.sum_cons]

/-- Total `work_days` of vehicle `v` over the spec-level timetable: one
full month minus holidays per route served by `v`. -/
theorem workDaysFor_specAux (fixed backup : List String)
    (hol : String → List Nat) (N : Nat) (v : String) (hN : 1 ≤ N)
    (hfix : fixed ≠ [])
    (hH : ∀ u ∈ fixed, pyIn "(H)" u = false)
    (hsub : ∀ u ∈ fixed, pyIn v u = true → u = v) :
    ∀ (rem : List String) (r_idx K : Nat),
      workDaysFor (specAux fixed backup hol N rem r_idx K) v
        = ((List.range' r_idx rem.length).countP
            (fun r => decide (routeVehicleOf fixed r = v)) : Int)
          * ((N : Int) - ((List.range' 1 N).countP
              (fun d => decide (d ∈ hol v)) : Int)) := by
  intro rem
  induction rem with
  | nil => intro r_idx K; simp [specAux, workDaysFor]
  | cons route rest ih =>
    intro r_idx K
    show workDaysFor ((route, routeBlocksSpec
        (hol (routeVehicleOf fixed r_idx)) backup
        (routeVehicleOf fixed r_idx) K N) :: specAux fixed backup hol N rest
        (r_idx + 1)
        (K + eventsTotal (hol (routeVehicleOf fixed r_idx)) N)) v = _
    rw [workDaysFor_cons]
    rw [ih (r_idx + 1) (K + eventsTotal (hol (routeVehicleOf fixed r_idx)) N)]
    have hmem := routeVehicleOf_mem fixed r_idx hfix
    rw [routeBlocksSpec_work_sum (hol (routeVehicleOf fixed r_idx)) backup
      (routeVehicleOf fixed r_idx) v K N hN (hH _ hmem) (hsub _ hmem)]
    rw [List.length_cons, List.range'_succ, List.countP_cons]
    by_cases hv : routeVehicleOf fixed r_idx = v
    · rw [if_pos hv, hv]
      simp only [hv, decide_True, if_pos rfl]
      push_cast
      ring
    · rw [if_neg hv]
      simp only [hv, decide_False]
      push_cast
      ring

theorem countP_index_eq_one (len j : Nat) (hj : j < len)
    (f : Nat → String) (v : String)
    (hfj : f j = v) (hinj : ∀ r, r < len → f r = v → r = j) :
    (List.range' 0 len).countP (fun r => decide (f r = v)) = 1 := by
  have hcongr : ∀ r ∈ List.range' 0 len,
      (decide (f r = v) = true) ↔ ((r == j) = true) := by
    intro r hr
    rw [List.mem_range'_1] at hr
    simp only [decide_eq_true_eq, beq_iff_eq]
    constructor
    · exact fun h => hinj r (by omega) h
    · intro h
      rw [h, hfj]
  rw [List.countP_congr hcongr]
  rw [← List.count_eq_countP]
  exact List.count_eq_one_of_mem (List.nodup_range' 0 len)
    (List.mem_range'_1.2 ⟨Nat.zero_le _, by omega⟩)

/-- C3 counterexample: the summary is built over the first 14 vehicles
(`[:14]`), so with one route and two vehicles the backup vehicle "B" gets a
row; its working-day count is 0 and its Holidays column is the whole month,
but its pre-computed holiday count is 0, so `working = N - holidays` fails
on that row. -/
theorem summary_backup_row_counterexample :
    app_summary ["R"] ["A", "B"] 2025 1
        = .ok [⟨"A", 26, 5⟩, ⟨"B", 0, 31⟩] ∧
    (mkHolidays ((["A", "B"] : List String).take (["R"] : List String).length)
        (daysInMonth 2025 1) "B").length = 0 ∧
    ¬((0 : Int) = (daysInMonth 2025 1 : Int) - 0 ∧ (31 : Int) = 0) := by
  refine ⟨by rfl, by decide, by decide⟩

/-- C3 (amended): restricted to the rows of fixed vehicles (those assigned
to a route), and provided route names are distinct and vehicle identifiers
are pairwise distinct, none a substring of another and none containing
"(H)": row `j` of the summary reports `working = N - h` and `Holidays = h`,
where `h` is vehicle `j`'s pre-computed holiday count.  (Rows of backup
vehicles instead report 0 working days and `N` holidays, as the
counterexample shows.) -/
theorem summary_fixed_vehicle_rows (routes vehicles : List String)
    (year month : Nat)
    (hr : routes ≠ []) (hv : routes.length < vehicles.length)
    (hrnd : routes.Nodup) (hvnd : vehicles.Nodup)
    (hpair : ∀ a ∈ vehicles, ∀ b ∈ vehicles, a ≠ b → pyIn a b = false)
    (hH : ∀ a ∈ vehicles, pyIn "(H)" a = false)
    (j : Nat) (hj1 : j < routes.length) (hj2 : j < 14)
    (vj : String) (hvj : vehicles.get? j = some vj) :
    ∃ rows, app_summary routes vehicles year month = .ok rows ∧
      rows.get? j = some ⟨vj,
        (daysInMonth year month : Int)
          - ((mkHolidays (vehicles.take routes.length)
              (daysInMonth year month) vj).length : Int),
        ((mkHolidays (vehicles.take routes.length)
            (daysInMonth year month) vj).length : Int)⟩ := by
  have hgen := generate_ok routes vehicles year month hr hv
  have hN : 1 ≤ daysInMonth year month := by
    have := daysInMonth_ge year month
    omega
  have hfixne := take_ne_nil_of_lt routes vehicles hr hv
  have hfl : (vehicles.take routes.length).length = routes.length := by
    rw [List.length_take]
    omega
  have happ : app_summary routes vehicles year month = .ok
      (generate_summary (pyDict (specAux (vehicles.take routes.length)
          (vehicles.drop routes.length)
          (mkHolidays (vehicles.take routes.length) (daysInMonth year month))
          (daysInMonth year month) routes 0 0))
        (vehicles.take 14) (daysInMonth year month)) := by
    simp only [app_summary, app_run, cleanup_then_summary, hgen]
  refine ⟨_, happ, ?_⟩
  have hpyd : pyDict (specAux (vehicles.take routes.length)
      (vehicles.drop routes.length)
      (mkHolidays (vehicles.take routes.length) (daysInMonth year month))
      (daysInMonth year month) routes 0 0)
      = specAux (vehicles.take routes.length) (vehicles.drop routes.length)
        (mkHolidays (vehicles.take routes.length) (daysInMonth year month))
        (daysInMonth year month) routes 0 0 := by
    apply pyDict_self
    rw [specAux_fst]
    exact hrnd
  rw [hpyd]
  unfold generate_summary
  rw [List.get?_map]
  have htake : (vehicles.take 14).get? j = vehicles.get? j :=
    List.get?_take hj2
  rw [htake, hvj]
  simp only [Option.map_some']
  -- helper facts about indexing the fixed vehicles
  have hgetd : ∀ r, r < routes.length →
      (vehicles.take routes.length).getD r "" = (vehicles.get? r).getD "" := by
    intro r hr
    rw [List.getD_eq_get?, List.get?_take hr]
  have hfj : routeVehicleOf (vehicles.take routes.length) j = vj := by
    show (vehicles.take routes.length).getD
      (j % (vehicles.take routes.length).length) "" = vj
    rw [hfl, Nat.mod_eq_of_lt hj1, hgetd j hj1, hvj]
    rfl
  have hinj : ∀ r, r < routes.length →
      routeVehicleOf (vehicles.take routes.length) r = vj → r = j := by
    intro r hr hfr
    have hstep : (vehicles.take routes.length).getD
        (r % (vehicles.take routes.length).length) "" = vj := hfr
    rw [hfl, Nat.mod_eq_of_lt hr, hgetd r hr] at hstep
    have hr2 : r < vehicles.length := by omega
    have hsome : vehicles.get? r = some vj := by
      rw [List.get?_eq_get hr2] at hstep ⊢
      simp only [Option.getD_some] at hstep
      rw [hstep]
    apply List.getElem?_inj hr2 hvnd
    rw [← List.get?_eq_getElem?, ← List.get?_eq_getElem?, hsome, hvj]
  -- the work-day computation
  have hvmem : vj ∈ vehicles := List.get?_mem hvj
  have hwork : workDaysFor (specAux (vehicles.take routes.length)
      (vehicles.drop routes.length)
      (mkHolidays (vehicles.take routes.length) (daysInMonth year month))
      (daysInMonth year month) routes 0 0) vj
      = (daysInMonth year month : Int)
        - ((mkHolidays (vehicles.take routes.length)
            (daysInMonth year month) vj).length : Int) := by
    rw [workDaysFor_specAux (vehicles.take routes.length)
      (vehicles.drop routes.length)
      (mkHolidays (vehicles.take routes.length) (daysInMonth year month))
      (daysInMonth year month) vj hN hfixne
      (fun u hu => hH u (List.take_subset _ _ hu))
      (fun u hu hin => by
        by_contra hne
        have hfalse := hpair vj hvmem u (List.take_subset _ _ hu)
          (fun hc => hne hc.symm)
        rw [hfalse] at hin
        exact Bool.false_ne_true hin)
      routes 0 0]
    have hcnt : (List.range' 0 routes.length).countP
        (fun r => decide (routeVehicleOf (vehicles.take routes.length) r
          = vj)) = 1 :=
      countP_index_eq_one routes.length j hj1 _ vj hfj hinj
    rw [hcnt]
    have hchar : mkHolidays (vehicles.take routes.length)
        (daysInMonth year month) vj
        = holidaySpecDays j (daysInMonth year month) := by
      have hnd2 : (vehicles.take routes.length).Nodup :=
        (List.take_sublist _ _).nodup hvnd
      have hmain := mkHolidays_nodup_eq (vehicles.take routes.length)
        (daysInMonth year month) hnd2 j (by omega)
      have hgd : (vehicles.take routes.length).getD j "" = vj := by
        rw [hgetd j hj1, hvj]
        rfl
      rw [hgd] at hmain
      exact hmain
    have hev : (List.range' 1 (daysInMonth year month)).countP
        (fun d => decide (d ∈ mkHolidays (vehicles.take routes.length)
          (daysInMonth year month) vj))
        = (mkHolidays (vehicles.take routes.length)
            (daysInMonth year month) vj).length := by
      rw [hchar]
      refine countP_mem_eq_length _ _ (holidaySpecDays_nodup _ _) ?_
      intro x hx
      have := holidaySpecDays_bounds j (daysInMonth year month) x hx
      omega
    rw [hev]
    push_cast
    ring
  rw [hwork]
  have hfin : (daysInMonth year month : Int)
      - ((daysInMonth year month : Int)
        - ((mkHolidays (vehicles.take routes.length)
            (daysInMonth year month) vj).length : Int))
      = ((mkHolidays (vehicles.take routes.length)
          (daysInMonth year month) vj).length : Int) := by
    ring
  rw [hfin]

theorem summary_fixed_vehicle_rows_witness :
    (["R1"] : List String) ≠ [] ∧
    (["R1"] : List String).length < (["A", "B"] : List String).length ∧
    (["R1"] : List String).Nodup ∧ (["A", "B"] : List String).Nodup ∧
    (∀ a ∈ (["A", "B"] : List String), ∀ b ∈ (["A", "B"] : List String),
      a ≠ b → pyIn a b = false) ∧
    (∀ a ∈ (["A", "B"] : List String), pyIn "(H)" a = false) ∧
    (∃ rows, app_summary ["R1"] ["A", "B"] 2025 1 = .ok rows ∧
      rows.get? 0 = some ⟨"A",
        (daysInMonth 2025 1 : Int)
          - ((mkHolidays ((["A", "B"] : List String).take
              (["R1"] : List String).length) (daysInMonth 2025 1)
              "A").length : Int),
        ((mkHolidays ((["A", "B"] : List String).take
            (["R1"] : List String).length) (daysInMonth 2025 1)
            "A").length : Int)⟩) :=
  ⟨by decide, by decide, by decide, by decide, by decide, by decide,
    summary_fixed_vehicle_rows ["R1"] ["A", "B"] 2025 1 (by decide)
      (by decide) (by decide) (by decide) (by decide) (by decide) 0
      (by decide) (by decide) "A" (by decide)⟩
